import Mathlib

/-!
Verification development for the `spacebattleship` crate.

The Rust sources are shallowly embedded as executable Lean definitions:

* `Coordinate`, `RectDims` — `board/common/coordinate2d.rs`, `board/rectangular.rs`
* `DimModel` — the `Dimensions`/`ColinearCheck` traits of `board/dimensions.rs`,
  packaged as a record of functions (a board owns one fixed geometry object)
* `Grid`, `GridCell` — `board/grid.rs`
* the `Line` ship shape — `ships/linear.rs`
* `BoardSetupState` and the entry operations — `board/setup.rs`
* `BoardState`, `boardShoot` — `board.rs`
* `USetup`, `GameState`, `gameShoot` — `game/uniform.rs`
* the simple two-player facade — `game/simple.rs`

Rust `usize` arithmetic is modelled with `Nat`: every arithmetic expression in
the embedded code is guarded by the construction checks of `RectDimensions`
(`width * height` does not overflow, both factors positive), so no wrap-around
is observable in the source and `Nat` is exact on the reachable inputs.

Rust panics (`unwrap`, `unreachable!`, index out of bounds) are modelled either
by an `Option` result (`none` = panic) where a claim is about the panic being
unreachable, or — for the internal grid index operator whose out-of-bounds use
is an invariant violation (spec section 7) — by a no-op / default cell, with the
relevant in-bounds facts carried as explicit invariants.
-/

/-- 2d coordinate, from `board/common/coordinate2d.rs` (`Coordinate2D`). -/
structure Coordinate where
  x : Nat
  y : Nat
deriving DecidableEq, Repr

/-- Rectangular dimensions, from `board/rectangular.rs` (`RectDimensions`).
`wrapping: BitFlags<Wrapping>` is modelled by the two booleans. -/
structure RectDims where
  width : Nat
  height : Nat
  wrapX : Bool
  wrapY : Bool
deriving DecidableEq, Repr

/-- `RectDimensions::check_bounds`. -/
def RectDims.check_bounds (d : RectDims) (c : Coordinate) : Option Coordinate :=
  if c.x < d.width ∧ c.y < d.height then some c else none

/-- `Dimensions::total_size` for `RectDimensions`. -/
def RectDims.total_size (d : RectDims) : Nat := d.width * d.height

/-- `Dimensions::try_linearize` for `RectDimensions`. -/
def RectDims.try_linearize (d : RectDims) (c : Coordinate) : Option Nat :=
  (d.check_bounds c).map fun c => c.y * d.width + c.x

/-- `Dimensions::un_linearize` for `RectDimensions`. -/
def RectDims.un_linearize (d : RectDims) (idx : Nat) : Coordinate :=
  ⟨idx % d.width, idx / d.width⟩

/-- The provided method `Dimensions::linearize` unwraps `try_linearize` and
panics out of bounds; the panic is modelled by the junk value `total_size`,
which is never a valid linear index. -/
def RectDims.linearize (d : RectDims) (c : Coordinate) : Nat :=
  (d.try_linearize c).getD d.total_size

/-- Neighbor enumeration for `RectDimensions` (`RectNeighbors` iterator state,
`board/rectangular.rs`): steps Up, Down, Left, Right in that order, each
yielding at most one coordinate, wrapping to the opposite edge when the
corresponding wrap flag is set; an out-of-bounds anchor yields nothing. -/
def RectDims.neighbors (d : RectDims) (c : Coordinate) : List Coordinate :=
  match d.check_bounds c with
  | none => []
  | some _ =>
    let up : Option Coordinate :=
      match c.y with
      | Nat.succ y => some ⟨c.x, y⟩
      | 0 => if d.wrapY then some ⟨c.x, d.height - 1⟩ else none
    let down : Option Coordinate :=
      if c.y + 1 < d.height then some ⟨c.x, c.y + 1⟩
      else if d.wrapY then some ⟨c.x, 0⟩ else none
    let left : Option Coordinate :=
      match c.x with
      | Nat.succ x => some ⟨x, c.y⟩
      | 0 => if d.wrapX then some ⟨d.width - 1, c.y⟩ else none
    let right : Option Coordinate :=
      if c.x + 1 < d.width then some ⟨c.x + 1, c.y⟩
      else if d.wrapX then some ⟨0, c.y⟩ else none
    [up, down, left, right].filterMap id

/-- `ColinearCheck::is_colinear` for `RectDimensions`: the three points may
differ in at most one axis. -/
def RectDims.is_colinear (_d : RectDims) (c1 c2 c3 : Coordinate) : Bool :=
  let difx := c1.x ≠ c2.x ∨ c2.x ≠ c3.x
  let dify := c1.y ≠ c2.y ∨ c2.y ≠ c3.y
  !(difx ∧ dify)

/-- The `Dimensions` + `ColinearCheck` traits (`board/dimensions.rs`) as a
record of functions over an abstract coordinate type.  A board stores one
geometry value, so the dynamic dispatch of the Rust trait object becomes
field access.  `neighbors` yields the finite list the Rust lazy iterator
produces; `is_neighbor` is the trait's provided implementation (membership in
the neighbor enumeration). -/
structure DimModel (C : Type) where
  total_size : Nat
  try_linearize : C → Option Nat
  neighbors : C → List C
  is_colinear : C → C → C → Bool

/-- Provided method `Dimensions::is_neighbor`: checks the neighbors iterator. -/
def DimModel.is_neighbor [DecidableEq C] (d : DimModel C) (c1 c2 : C) : Bool :=
  (d.neighbors c1).any fun n => n = c2

/-- Package `RectDimensions` as a `DimModel`. -/
def RectDims.toModel (d : RectDims) : DimModel Coordinate where
  total_size := d.total_size
  try_linearize := d.try_linearize
  neighbors := d.neighbors
  is_colinear := d.is_colinear

/-- Pairwise walk of `Line::is_valid_placement` (`ships/linear.rs`): each
element must neighbor the previous one and be colinear with the first pair. -/
def lineWalkValid [DecidableEq C] (d : DimModel C) (start : C) : C → List C → Bool
  | _, [] => true
  | prev, c :: rest =>
    if d.is_neighbor c prev && d.is_colinear start prev c then lineWalkValid d start c rest
    else false

/-- `Line::is_valid_placement`.  `Line::new` asserts `len > 0`, so when the
length check passes the projection is nonempty and the source's `unwrap` on the
first element cannot fail; the empty case is dead code returning `false`. -/
def lineValid [DecidableEq C] (len : Nat) (d : DimModel C) (proj : List C) : Bool :=
  if proj.length ≠ len then false
  else
    match proj with
    | [] => false
    | start :: rest => lineWalkValid d start start rest

/-- Loop body of `try_build_route` (`ships/linear.rs`): grow the route by the
first unvisited neighbor of the last cell that is colinear with the original
direction.  The `HashSet` of visited cells is modelled by a list with
membership tests; the fuel counts the remaining `route.len() < len`
iterations. -/
def buildRouteAux [DecidableEq C] (d : DimModel C) (start dir : C) :
    Nat → List C → List C → C → Option (List C)
  | 0, route, _, _ => some route
  | fuel + 1, route, visited, last =>
    match (d.neighbors last).find? fun n => d.is_colinear start dir n && !visited.contains n with
    | some n => buildRouteAux d start dir fuel (route ++ [n]) (visited ++ [n]) n
    | none => none

/-- `try_build_route` (`ships/linear.rs`). -/
def try_build_route [DecidableEq C] (d : DimModel C) (len : Nat) (start dir : C) :
    Option (List C) :=
  buildRouteAux d start dir (len - 2) [start, dir] [start, dir] dir

/-- All projections the `LineProjectIterState` iterator yields from an anchor
(`ships/linear.rs`): for length one just the singleton anchor, otherwise one
attempted route per neighbor of the anchor, in neighbor order, keeping the
successful ones. -/
def linePlacements [DecidableEq C] (len : Nat) (d : DimModel C) (start : C) :
    List (List C) :=
  if len == 1 then [[start]]
  else (d.neighbors start).filterMap fun dir => try_build_route d len start dir

/-- A grid cell, from `board/grid.rs` (`GridCell`): occupying ship, hit flag.
The default cell is `(none, false)`. -/
structure GridCell (I : Type) where
  ship : Option I
  hit : Bool
deriving DecidableEq, Repr

/-- The grid, from `board/grid.rs`: dimensions plus a linearized cell array. -/
structure Grid (I C : Type) where
  dim : DimModel C
  cells : List (GridCell I)

/-- `Grid::new`: `total_size()` default cells. -/
def Grid.new (I : Type) (dim : DimModel C) : Grid I C :=
  ⟨dim, List.replicate dim.total_size ⟨none, false⟩⟩

/-- `Grid::get`: linearize, then bounds-checked array access. -/
def Grid.get (g : Grid I C) (c : C) : Option (GridCell I) :=
  (g.dim.try_linearize c).bind fun i => g.cells.get? i

/-- Replace the element at an index, leaving the list unchanged when the index
is out of range. -/
def listModify (f : α → α) : Nat → List α → List α
  | _, [] => []
  | 0, a :: l => f a :: l
  | n + 1, a :: l => a :: listModify f n l

/-- Grid mutation `self.grid[coord].ship = v` (via `IndexMut`).  The Rust index
operator panics out of bounds; all writes in the source are preceded by a
successful bounds check, so the out-of-range case (modelled as a no-op) is
unreachable. -/
def Grid.setShip (g : Grid I C) (c : C) (v : Option I) : Grid I C :=
  match g.dim.try_linearize c with
  | some i => { g with cells := listModify (fun cell => { cell with ship := v }) i g.cells }
  | none => g

/-- Grid mutation `cell.hit = true` for the cell at a coordinate. -/
def Grid.setHit (g : Grid I C) (c : C) : Grid I C :=
  match g.dim.try_linearize c with
  | some i => { g with cells := listModify (fun cell => { cell with hit := true }) i g.cells }
  | none => g

/-- The panicking read `self.grid[coord]` (`Index`).  Out-of-bounds use is an
invariant violation in the source (spec section 7); it is modelled by the
default cell, and the in-bounds facts needed by each claim are carried as
explicit hypotheses or invariants. -/
def Grid.cellAt (g : Grid I C) (c : C) : GridCell I :=
  (g.get c).getD ⟨none, false⟩

/-- Write one ship id (or clear) over every coordinate of a projection: the
`for coord in placement.iter()` loops of `place` and `unplace`. -/
def Grid.writeShips (g : Grid I C) (v : Option I) (P : List C) : Grid I C :=
  P.foldl (fun g c => g.setShip c v) g

/-- `board::errors::CannotPlaceReason`. -/
inductive CannotPlaceReason where
  | AlreadyPlaced
  | InvalidProjection
  | AlreadyOccupied
deriving DecidableEq, Repr

/-- Placement info for one ship during setup, from `board/setup.rs`
(`ShipPlacementInfo`).  The stored `shape: S` is represented by the two
methods the setup code calls on it: `is_valid_placement` (`valid`) and
`project` (`project`), with the board's dimensions already supplied. -/
structure ShipInfo (C : Type) where
  valid : List C → Bool
  project : C → List (List C)
  placement : Option (List C)

/-- The per-coordinate check loop shared by `check_placement` and `place`
(`board/setup.rs`): out-of-bounds coordinate is `InvalidProjection`, an
occupied cell is `AlreadyOccupied`. -/
def checkCells (g : Grid I C) : List C → Except CannotPlaceReason Unit
  | [] => .ok ()
  | c :: rest =>
    match g.get c with
    | none => .error .InvalidProjection
    | some cell => if cell.ship.isSome then .error .AlreadyOccupied else checkCells g rest

/-- `ShipEntry::check_placement` / `ShipEntryMut::check_placement`. -/
def checkPlacement (g : Grid I C) (info : ShipInfo C) (proj : List C) :
    Except CannotPlaceReason Unit :=
  if info.placement.isSome then .error .AlreadyPlaced
  else if !info.valid proj then .error .InvalidProjection
  else checkCells g proj

/-- `ShipEntryMut::place`.  The source repeats the cell loop of
`check_placement` verbatim (wrapping each reason in a `PlaceError` that also
returns the rejected projection to the caller); the shared loop is `checkCells`
and the carried projection is dropped, keeping only the reason. -/
def entryPlace (id : I) (g : Grid I C) (info : ShipInfo C) (proj : List C) :
    Except CannotPlaceReason Unit × Grid I C × ShipInfo C :=
  if info.placement.isSome then (.error .AlreadyPlaced, g, info)
  else if !info.valid proj then (.error .InvalidProjection, g, info)
  else
    match checkCells g proj with
    | .error e => (.error e, g, info)
    | .ok () => (.ok (), g.writeShips (some id) proj, { info with placement := some proj })

/-- `ShipEntryMut::unplace`: take the placement, clearing its cells. -/
def entryUnplace (g : Grid I C) (info : ShipInfo C) :
    Option (List C) × Grid I C × ShipInfo C :=
  match info.placement with
  | none => (none, g, info)
  | some proj => (some proj, g.writeShips none proj, { info with placement := none })

/-- `BoardSetup` (`board/setup.rs`): grid plus ship registry.  The `HashMap`
is modelled as an association list with distinct keys (`add_ship` refuses
duplicates). -/
structure BoardSetupState (I C : Type) where
  grid : Grid I C
  ships : List (I × ShipInfo C)

/-- `BoardSetup::new`. -/
def BoardSetupState.new (I : Type) (dim : DimModel C) : BoardSetupState I C :=
  ⟨Grid.new I dim, []⟩

/-- Update the value stored under a key of an association list (writing through
a `&mut` obtained from the map). -/
def replaceVal [DecidableEq I] (id : I) (v : α) (l : List (I × α)) : List (I × α) :=
  l.map fun kv => if kv.1 = id then (id, v) else kv

/-- `BoardSetup::add_ship`: refuse an existing id, otherwise insert the shape
unplaced.  On `AlreadyExists` the state is unchanged. -/
def bsAddShip [DecidableEq I] (b : BoardSetupState I C) (id : I)
    (valid : List C → Bool) (project : C → List (List C)) : BoardSetupState I C :=
  match b.ships.lookup id with
  | some _ => b
  | none => { b with ships := b.ships ++ [(id, ⟨valid, project, none⟩)] }

/-- `get_ship_mut(id)` followed by `ShipEntryMut::place`; `none` when the id is
not registered (the facade's `unwrap` would panic there). -/
def bsPlace [DecidableEq I] (b : BoardSetupState I C) (id : I) (proj : List C) :
    Option (Except CannotPlaceReason Unit × BoardSetupState I C) :=
  (b.ships.lookup id).map fun info =>
    let r := entryPlace id b.grid info proj
    (r.1, ⟨r.2.1, replaceVal id r.2.2 b.ships⟩)

/-- `get_ship_mut(id)` followed by `ShipEntryMut::unplace`. -/
def bsUnplace [DecidableEq I] (b : BoardSetupState I C) (id : I) :
    Option (Option (List C) × BoardSetupState I C) :=
  (b.ships.lookup id).map fun info =>
    let r := entryUnplace b.grid info
    (r.1, ⟨r.2.1, replaceVal id r.2.2 b.ships⟩)

/-- One mutating setup-phase call on a board (claim C6's operation alphabet). -/
inductive SetupOp (I C : Type) where
  | addShip (id : I) (valid : List C → Bool) (project : C → List (List C))
  | place (id : I) (proj : List C)
  | unplace (id : I)

/-- Apply one setup call, keeping only the state;  calls on an unregistered
ship id leave the state unchanged (the entry is simply absent). -/
def applySetupOp [DecidableEq I] (b : BoardSetupState I C) : SetupOp I C → BoardSetupState I C
  | .addShip id v pj => bsAddShip b id v pj
  | .place id proj =>
    match bsPlace b id proj with
    | some r => r.2
    | none => b
  | .unplace id =>
    match bsUnplace b id with
    | some r => r.2
    | none => b

/-- `BoardSetup::ready`: at least one ship, all placed. -/
def bsReady (b : BoardSetupState I C) : Bool :=
  !b.ships.isEmpty && b.ships.all fun kv => kv.2.placement.isSome

/-- `Board` (`board.rs`): grid plus the id-to-placement registry of a play
board. -/
structure BoardState (I C : Type) where
  grid : Grid I C
  ships : List (I × List C)

/-- `BoardSetup::start`'s successful conversion of the ship registry: every
placed entry keeps `(id, placement)`.  The source marks unplaced entries
`unreachable!` (guarded by `ready`); `filterMap` drops them, and `ready`
guarantees nothing is dropped. -/
def boardStart (b : BoardSetupState I C) : BoardState I C :=
  ⟨b.grid, b.ships.filterMap fun kv => kv.2.placement.map fun p => (kv.1, p)⟩

/-- `ShipRef::sunk`: every coordinate of the projection has been hit. -/
def shipSunk (g : Grid I C) (P : List C) : Bool :=
  P.all fun c => (g.cellAt c).hit

/-- `Board::defeated`: all ships sunk. -/
def BoardState.defeated (b : BoardState I C) : Bool :=
  b.ships.all fun kv => shipSunk b.grid kv.2

/-- `board::errors::CannotShootReason`. -/
inductive CannotShootReason where
  | AlreadyDefeated
  | OutOfBounds
  | AlreadyShot
deriving DecidableEq, Repr

/-- `board::ShotOutcome`. -/
inductive ShotOutcome (I : Type) where
  | Miss
  | Hit (id : I)
  | Sunk (id : I)
  | Defeated (id : I)
deriving DecidableEq, Repr

/-- `Board::shoot` (`board.rs`).  The final `get_ship(&ship).unwrap().sunk()`
panics when the hit cell names an unregistered ship; that can only happen when
invariant (I2) is broken, and is modelled by the `Hit` fallback in the last
line. -/
def boardShoot [DecidableEq I] (b : BoardState I C) (c : C) :
    Except CannotShootReason (ShotOutcome I) × BoardState I C :=
  if b.defeated then (.error .AlreadyDefeated, b)
  else
    match b.grid.get c with
    | none => (.error .OutOfBounds, b)
    | some cell =>
      if cell.hit then (.error .AlreadyShot, b)
      else
        let b' : BoardState I C := { b with grid := b.grid.setHit c }
        match cell.ship with
        | none => (.ok .Miss, b')
        | some id =>
          if b'.defeated then (.ok (.Defeated id), b')
          else
            match b'.ships.lookup id with
            | some P => if shipSunk b'.grid P then (.ok (.Sunk id), b') else (.ok (.Hit id), b')
            | none => (.ok (.Hit id), b')

/-- Modelled from the spec: the shot-resolution order stated in section 4.4
and claim C4, written from the spec's words for comparison with `boardShoot`
(bounds decided by `try_linearize` alone, cell read through the grid, ship
lookup by id; "that ship is now sunk" reads the shot ship's recorded
placement — vacuously sunk if the id were unregistered, which (I2) rules
out). -/
def shootSpecOrder [DecidableEq I] (b : BoardState I C) (c : C) :
    Except CannotShootReason (ShotOutcome I) × BoardState I C :=
  if b.defeated then (.error .AlreadyDefeated, b)
  else
    match b.grid.dim.try_linearize c with
    | none => (.error .OutOfBounds, b)
    | some _ =>
      if (b.grid.cellAt c).hit then (.error .AlreadyShot, b)
      else
        let b' : BoardState I C := { b with grid := b.grid.setHit c }
        match (b.grid.cellAt c).ship with
        | none => (.ok .Miss, b')
        | some id =>
          if b'.defeated then (.ok (.Defeated id), b')
          else if ((b'.ships.lookup id).map (shipSunk b'.grid)).getD true then
            (.ok (.Sunk id), b')
          else (.ok (.Hit id), b')

/-- Well-formed geometry for a grid: the cell array has exactly `total_size`
entries and linearization stays in range (true of `RectDimensions` and
established by `Grid::new`). -/
def GridWF (g : Grid I C) : Prop :=
  g.cells.length = g.dim.total_size ∧
    ∀ c i, g.dim.try_linearize c = some i → i < g.dim.total_size

/-- A play board whose occupied cells all name registered ships — the part of
invariant (I2) that `Board::shoot`'s internal `unwrap` relies on. -/
def BoardRegistered [DecidableEq I] (b : BoardState I C) : Prop :=
  ∀ i cell, b.grid.cells.get? i = some cell →
    ∀ s, cell.ship = some s → (b.ships.lookup s).isSome

/-- `game::uniform::errors::CannotShootReason`. -/
inductive UCannotShootReason where
  | AlreadyOver
  | SelfShot
  | UnknownPlayer
  | AlreadyDefeated
  | OutOfBounds
  | AlreadyShot
deriving DecidableEq, Repr

/-- `game::uniform::ShotOutcome`. -/
inductive UShotOutcome (I : Type) where
  | Miss
  | Hit (id : I)
  | Sunk (id : I)
  | Defeated (id : I)
  | Victory (id : I)
deriving DecidableEq, Repr

/-- `From<BoardShotOutcome> for ShotOutcome` (`game/uniform.rs`). -/
def UShotOutcome.ofBoard : ShotOutcome I → UShotOutcome I
  | .Miss => .Miss
  | .Hit id => .Hit id
  | .Sunk id => .Sunk id
  | .Defeated id => .Defeated id

/-- Lift a board shot error to a game shot error (`ShotError::add_context`
keeps the reason and adds the target player). -/
def UCannotShootReason.ofBoard : CannotShootReason → UCannotShootReason
  | .AlreadyDefeated => .AlreadyDefeated
  | .OutOfBounds => .OutOfBounds
  | .AlreadyShot => .AlreadyShot

/-- `game::uniform::GameSetup`: setup boards by player plus the insertion
order. -/
structure USetup (P I C : Type) where
  boards : List (P × BoardSetupState I C)
  turnOrder : List P

/-- `GameSetup::new`. -/
def USetup.empty (P I C : Type) : USetup P I C := ⟨[], []⟩

/-- `game::uniform::Game`. -/
structure GameState (P I C : Type) where
  boards : List (P × BoardState I C)
  turnOrder : List P
  current : Nat

/-- `GameSetup::add_player`: refuse an existing id, otherwise push the player
onto the turn order and insert an empty board.  On `AlreadyExists` the state is
unchanged. -/
def uAddPlayer [DecidableEq P] (s : USetup P I C) (pid : P) (dim : DimModel C) :
    USetup P I C :=
  match s.boards.lookup pid with
  | some _ => s
  | none => ⟨s.boards ++ [(pid, BoardSetupState.new I dim)], s.turnOrder ++ [pid]⟩

/-- `GameSetup::ready`: at least two players, all boards ready. -/
def uReady (s : USetup P I C) : Bool :=
  decide (2 ≤ s.boards.length) && s.boards.all fun pb => bsReady pb.2

/-- `GameSetup::start`: when ready, convert every board and begin at
`current = 0`; otherwise the setup is returned unchanged (modelled `none`). -/
def ustart (s : USetup P I C) : Option (GameState P I C) :=
  if uReady s then
    some ⟨s.boards.map fun pb => (pb.1, boardStart pb.2), s.turnOrder, 0⟩
  else none

/-- `Game::current`: `&turn_order[current]`, an indexing panic when `current`
is out of range (impossible: `start` sets 0 and nothing changes it). -/
def GameState.currentPlayer (g : GameState P I C) : Option P :=
  g.turnOrder.get? g.current

/-- Number of undefeated boards, the `remaining` count of `Game::winner`. -/
def GameState.remaining (g : GameState P I C) : Nat :=
  (g.boards.filter fun pb => !pb.2.defeated).length

/-- `Game::winner`: the current player when exactly one board is undefeated,
else nobody. -/
def GameState.winner (g : GameState P I C) : Option P :=
  if g.remaining = 1 then g.currentPlayer else none

/-- `Game::shoot` (`game/uniform.rs`): game-over and self-shot guards, then
dispatch to the target board, upgrading a `Defeated` outcome to `Victory` when
the game now has a winner. -/
def gameShoot [DecidableEq P] [DecidableEq I] (g : GameState P I C) (target : P) (c : C) :
    Except UCannotShootReason (UShotOutcome I) × GameState P I C :=
  if (g.winner).isSome then (.error .AlreadyOver, g)
  else if g.currentPlayer = some target then (.error .SelfShot, g)
  else
    match g.boards.lookup target with
    | some b =>
      let r := boardShoot b c
      let g' : GameState P I C := { g with boards := replaceVal target r.2 g.boards }
      match r.1 with
      | .ok (.Defeated id) =>
        if (g'.winner).isSome then (.ok (.Victory id), g') else (.ok (.Defeated id), g')
      | .ok o => (.ok (UShotOutcome.ofBoard o), g')
      | .error e => (.error (UCannotShootReason.ofBoard e), g')
    | none => (.error .UnknownPlayer, g)

/-- Run a sequence of `Game::shoot` calls, keeping only the state. -/
def applyShots [DecidableEq P] [DecidableEq I] (g : GameState P I C)
    (shots : List (P × C)) : GameState P I C :=
  shots.foldl (fun g tc => (gameShoot g tc.1 tc.2).2) g

/-- `game::simple::Player`. -/
inductive Player where
  | P1
  | P2
deriving DecidableEq, Repr

/-- `Player::oponent` (sic). -/
def Player.oponent : Player → Player
  | .P1 => .P2
  | .P2 => .P1

/-- `game::simple::Ship`. -/
inductive Ship where
  | Carrier
  | Battleship
  | Cruiser
  | Submarine
  | Destroyer
deriving DecidableEq, Repr

/-- `Ship::len`. -/
def Ship.len : Ship → Nat
  | .Carrier => 5
  | .Battleship => 4
  | .Cruiser => 3
  | .Submarine => 3
  | .Destroyer => 2

/-- `game::simple::Orientation` (named `SimpleOrientation` here because
Mathlib already declares a root `Orientation`). -/
inductive SimpleOrientation where
  | Up
  | Down
  | Left
  | Right
deriving DecidableEq, Repr

/-- `Orientation::check_dir` (`game/simple.rs`): compare the first two
projection coordinates componentwise (`proj[0].x.cmp(&proj[1].x)` etc.) and
accept per the source's match arms; projections shorter than two coordinates
always pass. -/
def SimpleOrientation.check_dir (o : SimpleOrientation) (proj : List Coordinate) : Bool :=
  match proj with
  | c0 :: c1 :: _ =>
    match o, compare c0.x c1.x, compare c0.y c1.y with
    | .Up, .eq, .lt => true
    | .Down, .eq, .gt => true
    | .Left, .lt, .eq => true
    | .Right, .gt, .eq => true
    | _, _, _ => false
  | _ => true

/-- `game::simple::CannotPlaceReason`. -/
inductive SimplePlaceReason where
  | InsufficientSpace
  | AlreadyPlaced
  | AlreadyOccupied
deriving DecidableEq, Repr

/-- `game::simple::CannotShootReason`. -/
inductive SimpleShootReason where
  | AlreadyOver
  | OutOfTurn
  | OutOfBounds
  | AlreadyShot
deriving DecidableEq, Repr

/-- `game::simple::ShotOutcome`. -/
inductive SimpleShotOutcome where
  | Miss
  | Hit (s : Ship)
  | Sunk (s : Ship)
  | Victory (s : Ship)
deriving DecidableEq, Repr

/-- `RectDimensions::new(10, 10)`: the fixed no-wrap board of the facade. -/
def rect10 : RectDims := ⟨10, 10, false, false⟩

/-- The facade's geometry as a `DimModel`. -/
def rect10dm : DimModel Coordinate := rect10.toModel

/-- The `Line` shape of a facade ship, as its validation method. -/
def shipShapeValid (s : Ship) : List Coordinate → Bool :=
  lineValid s.len rect10dm

/-- The `Line` shape of a facade ship, as its projection method. -/
def shipShapeProject (s : Ship) : Coordinate → List (List Coordinate) :=
  linePlacements s.len rect10dm

/-- Mutate one player's setup board in place (`get_board_mut(&pid).unwrap()`
followed by board calls); no-op when the player is unknown. -/
def uWithBoard [DecidableEq P] (s : USetup P I C) (pid : P)
    (f : BoardSetupState I C → BoardSetupState I C) : USetup P I C :=
  match s.boards.lookup pid with
  | some b => { s with boards := replaceVal pid (f b) s.boards }
  | none => s

/-- `GameSetup::add_ships`: one of each facade ship. -/
def addSimpleShips (b : BoardSetupState Ship Coordinate) : BoardSetupState Ship Coordinate :=
  [Ship.Carrier, .Battleship, .Cruiser, .Submarine, .Destroyer].foldl
    (fun b s => bsAddShip b s (shipShapeValid s) (shipShapeProject s)) b

/-- `game::simple::GameSetup::new`: two 10×10 players, five ships each. -/
def simpleNewSetup : USetup Player Ship Coordinate :=
  let s := USetup.empty Player Ship Coordinate
  let s := uAddPlayer s .P1 rect10dm
  let s := uWithBoard s .P1 addSimpleShips
  let s := uAddPlayer s .P2 rect10dm
  let s := uWithBoard s .P2 addSimpleShips
  s

/-- `GameSetup::place_ship` (`game/simple.rs`): enumerate the ship's
projections from `start`, select the first whose direction matches
(`Iterator::find` with `check_dir`), fail with `InsufficientSpace` when none
matches, otherwise place it and translate the board-level error.  `none`
models the panics: the two lookup `unwrap`s and the `unreachable!` on
`InvalidProjection`. -/
def simplePlace (s : USetup Player Ship Coordinate) (player : Player) (ship : Ship)
    (start : Coordinate) (dir : SimpleOrientation) :
    Option (Except SimplePlaceReason Unit × USetup Player Ship Coordinate) :=
  match s.boards.lookup player with
  | none => none
  | some board =>
    match board.ships.lookup ship with
    | none => none
    | some info =>
      match (info.project start).find? fun proj => dir.check_dir proj with
      | none => some (.error .InsufficientSpace, s)
      | some proj =>
        let r := entryPlace ship board.grid info proj
        let board' : BoardSetupState Ship Coordinate := ⟨r.2.1, replaceVal ship r.2.2 board.ships⟩
        let s' : USetup Player Ship Coordinate := { s with boards := replaceVal player board' s.boards }
        match r.1 with
        | .ok () => some (.ok (), s')
        | .error .AlreadyOccupied => some (.error .AlreadyOccupied, s')
        | .error .AlreadyPlaced => some (.error .AlreadyPlaced, s')
        | .error .InvalidProjection => none

/-- `GameSetup::unplace_ship` (`game/simple.rs`); `none` models the lookup
`unwrap` panics. -/
def simpleUnplace (s : USetup Player Ship Coordinate) (player : Player) (ship : Ship) :
    Option (Bool × USetup Player Ship Coordinate) :=
  match s.boards.lookup player with
  | none => none
  | some board =>
    match board.ships.lookup ship with
    | none => none
    | some info =>
      let r := entryUnplace board.grid info
      let board' : BoardSetupState Ship Coordinate := ⟨r.2.1, replaceVal ship r.2.2 board.ships⟩
      some (r.1.isSome, { s with boards := replaceVal player board' s.boards })

/-- A mutating facade setup call. -/
inductive SimpleSetupOp where
  | placeShip (player : Player) (ship : Ship) (start : Coordinate) (dir : SimpleOrientation)
  | unplaceShip (player : Player) (ship : Ship)

/-- Apply one facade setup call, `none` when it panics. -/
def applySimpleSetupOp (s : USetup Player Ship Coordinate) :
    SimpleSetupOp → Option (USetup Player Ship Coordinate)
  | .placeShip p sh st dir => (simplePlace s p sh st dir).map fun r => r.2
  | .unplaceShip p sh => (simpleUnplace s p sh).map fun r => r.2

/-- Apply a sequence of facade setup calls. -/
def applySimpleSetupOps (s : USetup Player Ship Coordinate) (ops : List SimpleSetupOp) :
    Option (USetup Player Ship Coordinate) :=
  ops.foldlM applySimpleSetupOp s

/-- `game::simple::Game::shoot`: map the uniform result onto the facade's
outcome and error enums.  `none` models the three `unreachable!` arms
(uniform `Defeated` outcome, `UnknownPlayer`, `AlreadyDefeated`). -/
def simpleShoot (g : GameState Player Ship Coordinate) (t : Player) (c : Coordinate) :
    Option (Except SimpleShootReason SimpleShotOutcome × GameState Player Ship Coordinate) :=
  let r := gameShoot g t c
  match r.1 with
  | .ok .Miss => some (.ok .Miss, r.2)
  | .ok (.Hit s) => some (.ok (.Hit s), r.2)
  | .ok (.Sunk s) => some (.ok (.Sunk s), r.2)
  | .ok (.Defeated _) => none
  | .ok (.Victory s) => some (.ok (.Victory s), r.2)
  | .error .AlreadyOver => some (.error .AlreadyOver, r.2)
  | .error .SelfShot => some (.error .OutOfTurn, r.2)
  | .error .UnknownPlayer => none
  | .error .AlreadyDefeated => none
  | .error .OutOfBounds => some (.error .OutOfBounds, r.2)
  | .error .AlreadyShot => some (.error .AlreadyShot, r.2)

/-- Run a sequence of facade shots; `none` as soon as one panics. -/
def simpleRunShots (g : GameState Player Ship Coordinate)
    (shots : List (Player × Coordinate)) : Option (GameState Player Ship Coordinate) :=
  shots.foldlM (fun g tc => (simpleShoot g tc.1 tc.2).map fun r => r.2) g

/-- Recorded placement of one facade ship (`GameSetup::get_placement`). -/
def placementOf (s : USetup Player Ship Coordinate) (p : Player) (i : Ship) :
    Option (List Coordinate) :=
  (s.boards.lookup p).bind fun b => (b.ships.lookup i).bind fun info => info.placement

/-- One mutating call on a `game::uniform::GameSetup`: `add_player`, or a board
call through the `&mut BoardSetup` handles returned by
`add_player`/`get_board_mut`. -/
inductive UOp (P I C : Type) where
  | addPlayer (pid : P) (dim : DimModel C)
  | addShip (pid : P) (id : I) (valid : List C → Bool) (project : C → List (List C))
  | place (pid : P) (id : I) (proj : List C)
  | unplace (pid : P) (id : I)

/-- Apply one uniform setup call. -/
def applyUOp [DecidableEq P] [DecidableEq I] (s : USetup P I C) : UOp P I C → USetup P I C
  | .addPlayer pid dim => uAddPlayer s pid dim
  | .addShip pid id v pj => uWithBoard s pid fun b => applySetupOp b (.addShip id v pj)
  | .place pid id proj => uWithBoard s pid fun b => applySetupOp b (.place id proj)
  | .unplace pid id => uWithBoard s pid fun b => applySetupOp b (.unplace id)

/-- Apply a sequence of uniform setup calls. -/
def applyUOps [DecidableEq P] [DecidableEq I] (s : USetup P I C) (ops : List (UOp P I C)) :
    USetup P I C :=
  ops.foldl applyUOp s

/-- The `ShipShape` contract of spec section 3: shapes only accept nonempty
projections (`ShapeProjection` invariant).  Required of every shape fed to
`add_ship` in a setup run. -/
def NonemptyShapes (ops : List (UOp P I C)) : Prop :=
  ∀ op ∈ ops, match op with
    | .addShip _ _ v _ => ∀ p, v p = true → p ≠ []
    | _ => True

/-- Every cell of a grid is unhit (true during the whole setup phase). -/
def GridHitsClear (g : Grid I C) : Prop :=
  ∀ i cell, g.cells.get? i = some cell → cell.hit = false

/-- Every ship entry of a setup registry validates only nonempty projections
and records only nonempty placements. -/
def ShipsNonempty [DecidableEq I] (ships : List (I × ShipInfo C)) : Prop :=
  ∀ s info, ships.lookup s = some info →
    (∀ p, info.valid p = true → p ≠ []) ∧ ∀ P, info.placement = some P → P ≠ []

/-- Cell `i` of a setup board is occupied by ship `s`. -/
def ShipAt (b : BoardSetupState I C) (i : Nat) (s : I) : Prop :=
  ∃ cell, b.grid.cells.get? i = some cell ∧ cell.ship = some s

/-- Invariants (I1) + (I2) of the spec for a setup board: a cell holds ship
`s` exactly when it is the image of a coordinate of `s`'s recorded placement
(so cells of unplaced ships hold `none`). -/
def SetupInv [DecidableEq I] (b : BoardSetupState I C) : Prop :=
  (∀ i s, ShipAt b i s →
      ∃ info P, b.ships.lookup s = some info ∧ info.placement = some P ∧
        ∃ c ∈ P, b.grid.dim.try_linearize c = some i) ∧
  ∀ s info P, b.ships.lookup s = some info → info.placement = some P →
    ∀ c ∈ P, ∃ i, b.grid.dim.try_linearize c = some i ∧ ShipAt b i s

/-- Uniform-setup bookkeeping: the board keys are exactly the recorded turn
order, and every board has clear hit flags and nonempty-only shapes and
placements. -/
def USetupClean [DecidableEq P] [DecidableEq I] (s : USetup P I C) : Prop :=
  s.boards.map Prod.fst = s.turnOrder ∧
    ∀ p b, s.boards.lookup p = some b → GridHitsClear b.grid ∧ ShipsNonempty b.ships

/-- The turn invariant of a running uniform game: the turn index is still 0 and
the player it designates owns an undefeated board. -/
def GameTurnInv [DecidableEq P] (g : GameState P I C) : Prop :=
  g.current = 0 ∧ ∃ p₀ b₀, g.turnOrder.get? 0 = some p₀ ∧
    g.boards.lookup p₀ = some b₀ ∧ b₀.defeated = false

/-- The turn invariant of a running facade game: turn order `[P1, P2]`, turn
index 0, exactly the two boards, and P1's board undefeated. -/
def SimpleTurnInv (g : GameState Player Ship Coordinate) : Prop :=
  g.current = 0 ∧ g.turnOrder = [Player.P1, Player.P2] ∧
    ∃ b1 b2, g.boards = [(Player.P1, b1), (Player.P2, b2)] ∧ b1.defeated = false

/-- A one-cell geometry used by concrete witnesses. -/
def wDim : DimModel Nat :=
  ⟨1, fun c => if c = 0 then some 0 else none, fun _ => [], fun _ _ _ => true⟩

/-- A fresh one-cell grid over `wDim`. -/
def wGrid : Grid Nat Nat := Grid.new Nat wDim

/-- A witness ship entry that is already placed. -/
def wInfoPlaced : ShipInfo Nat := ⟨fun _ => true, fun _ => [], some [0]⟩

/-- A witness ship entry that accepts only the projection `[0]`. -/
def wInfoFree : ShipInfo Nat := ⟨fun p => p = [0], fun _ => [[0]], none⟩

/-- A witness play board: one ship on the single cell, not yet hit. -/
def wBoard : BoardState Nat Nat := ⟨⟨wDim, [⟨some 0, false⟩]⟩, [(0, [0])]⟩

/-- A witness uniform setup run: two players on one-cell boards, one placed
one-cell ship each. -/
def wUops : List (UOp Bool Nat Nat) :=
  [.addPlayer false wDim, .addShip false 0 (fun p => p = [0]) (fun _ => [[0]]),
   .place false 0 [0],
   .addPlayer true wDim, .addShip true 0 (fun p => p = [0]) (fun _ => [[0]]),
   .place true 0 [0]]

/-- The game the witness setup run starts. -/
def wGame : GameState Bool Nat Nat :=
  (ustart (applyUOps (USetup.empty Bool Nat Nat) wUops)).getD ⟨[], [], 0⟩

/-- A witness facade setup: every ship of both players placed in its own row
(using `Left`, which the code maps to increasing x). -/
def wSimpleOps : List SimpleSetupOp :=
  [.placeShip .P1 .Carrier ⟨0, 0⟩ .Left, .placeShip .P1 .Battleship ⟨0, 1⟩ .Left,
   .placeShip .P1 .Cruiser ⟨0, 2⟩ .Left, .placeShip .P1 .Submarine ⟨0, 3⟩ .Left,
   .placeShip .P1 .Destroyer ⟨0, 4⟩ .Left,
   .placeShip .P2 .Carrier ⟨0, 0⟩ .Left, .placeShip .P2 .Battleship ⟨0, 1⟩ .Left,
   .placeShip .P2 .Cruiser ⟨0, 2⟩ .Left, .placeShip .P2 .Submarine ⟨0, 3⟩ .Left,
   .placeShip .P2 .Destroyer ⟨0, 4⟩ .Left]

/-- The fully placed facade setup reached by `wSimpleOps`. -/
def wSimpleSetup : USetup Player Ship Coordinate :=
  (applySimpleSetupOps simpleNewSetup wSimpleOps).getD simpleNewSetup

/-- The facade game started from `wSimpleSetup`. -/
def wSimpleGame : GameState Player Ship Coordinate :=
  (ustart wSimpleSetup).getD ⟨[], [], 0⟩

/-! ### List and lookup lemmas -/

theorem listModify_get? (f : α → α) (n : Nat) (l : List α) (i : Nat) :
    (listModify f n l).get? i = if i = n then (l.get? n).map f else l.get? i := by
  induction l generalizing n i with
  | nil => simp [listModify]
  | cons a l ih =>
    cases n with
    | zero => cases i with
      | zero => simp [listModify]
      | succ i => simp [listModify]
    | succ n => cases i with
      | zero => simp [listModify]
      | succ i => simpa [listModify, Nat.succ_inj] using ih n i

theorem lookup_cons [DecidableEq K] (t k : K) (u : α) (l : List (K × α)) :
    List.lookup t ((k, u) :: l) = if t = k then some u else List.lookup t l := by
  by_cases h : t = k
  · subst h; simp [List.lookup]
  · simp [List.lookup, beq_false_of_ne h, h]

theorem replaceVal_cons [DecidableEq K] (id : K) (v : α) (k : K) (u : α) (l : List (K × α)) :
    replaceVal id v ((k, u) :: l) = (if k = id then (id, v) else (k, u)) :: replaceVal id v l := rfl

theorem lookup_append_some [DecidableEq K] {l : List (K × α)} {t : K} {v : α}
    (l₂ : List (K × α)) (h : l.lookup t = some v) : (l ++ l₂).lookup t = some v := by
  induction l with
  | nil => simp [List.lookup] at h
  | cons kv l ih =>
    obtain ⟨k, u⟩ := kv
    rw [lookup_cons] at h
    rw [List.cons_append, lookup_cons]
    by_cases hk : t = k
    · rwa [if_pos hk] at h ⊢
    · rw [if_neg hk] at h ⊢; exact ih h

theorem lookup_append_none [DecidableEq K] {l : List (K × α)} {t : K}
    (l₂ : List (K × α)) (h : l.lookup t = none) : (l ++ l₂).lookup t = l₂.lookup t := by
  induction l with
  | nil => rfl
  | cons kv l ih =>
    obtain ⟨k, u⟩ := kv
    rw [lookup_cons] at h
    rw [List.cons_append, lookup_cons]
    by_cases hk : t = k
    · rw [if_pos hk] at h; exact absurd h (by simp)
    · rw [if_neg hk] at h ⊢; exact ih h

theorem lookup_replaceVal_self [DecidableEq K] {l : List (K × α)} {t : K} {v : α}
    (v' : α) (h : l.lookup t = some v) : (replaceVal t v' l).lookup t = some v' := by
  induction l with
  | nil => simp [List.lookup] at h
  | cons kv l ih =>
    obtain ⟨k, u⟩ := kv
    rw [lookup_cons] at h
    rw [replaceVal_cons]
    by_cases hk : k = t
    · rw [if_pos hk, lookup_cons, if_pos rfl]
    · rw [if_neg hk, lookup_cons, if_neg (Ne.symm hk)]
      rw [if_neg (Ne.symm hk)] at h
      exact ih h

theorem lookup_replaceVal_ne [DecidableEq K] {l : List (K × α)} {t id : K}
    (v' : α) (h : t ≠ id) : (replaceVal id v' l).lookup t = l.lookup t := by
  induction l with
  | nil => rfl
  | cons kv l ih =>
    obtain ⟨k, u⟩ := kv
    rw [replaceVal_cons, lookup_cons]
    by_cases hk : k = id
    · rw [if_pos hk, lookup_cons, if_neg h, if_neg (hk ▸ h), ih]
    · rw [if_neg hk, lookup_cons, ih]

theorem replaceVal_map_fst [DecidableEq K] (id : K) (v : α) (l : List (K × α)) :
    (replaceVal id v l).map Prod.fst = l.map Prod.fst := by
  induction l with
  | nil => rfl
  | cons kv l ih =>
    obtain ⟨k, u⟩ := kv
    rw [replaceVal_cons, List.map_cons, List.map_cons, ih]
    by_cases hk : k = id
    · rw [if_pos hk, hk]
    · rw [if_neg hk]

theorem lookup_map_value [DecidableEq K] (f : α → β) (l : List (K × α)) (t : K) :
    (l.map fun kv => (kv.1, f kv.2)).lookup t = (l.lookup t).map f := by
  induction l with
  | nil => rfl
  | cons kv l ih =>
    obtain ⟨k, u⟩ := kv
    rw [List.map_cons]
    show List.lookup t ((k, f u) :: _) = _
    rw [lookup_cons, lookup_cons]
    by_cases hk : t = k
    · rw [if_pos hk, if_pos hk]; rfl
    · rw [if_neg hk, if_neg hk, ih]

theorem Grid.setShip_dim (g : Grid I C) (c : C) (v : Option I) :
    (g.setShip c v).dim = g.dim := by
  unfold Grid.setShip
  cases g.dim.try_linearize c <;> rfl

theorem Grid.setShip_get? (g : Grid I C) (c : C) (v : Option I) (i : Nat) :
    (g.setShip c v).cells.get? i =
      if g.dim.try_linearize c = some i
      then (g.cells.get? i).map fun cell => { cell with ship := v }
      else g.cells.get? i := by
  unfold Grid.setShip
  cases h : g.dim.try_linearize c with
  | none => simp [h]
  | some j =>
    simp only [h, listModify_get?]
    by_cases hij : i = j
    · subst hij; simp
    · rw [if_neg hij, if_neg (by simpa [eq_comm] using hij)]

theorem Grid.writeShips_dim (g : Grid I C) (v : Option I) (P : List C) :
    (g.writeShips v P).dim = g.dim := by
  induction P generalizing g with
  | nil => rfl
  | cons c P ih =>
    show ((g.setShip c v).writeShips v P).dim = g.dim
    rw [ih, Grid.setShip_dim]

theorem gridcell_set_ship_idem (o : Option (GridCell I)) (v : Option I) :
    ((o.map fun cell => { cell with ship := v }).map fun cell => { cell with ship := v })
      = o.map fun cell => { cell with ship := v } := by
  cases o <;> rfl

theorem Grid.writeShips_get? [DecidableEq C] (g : Grid I C) (v : Option I) (P : List C) (i : Nat) :
    (g.writeShips v P).cells.get? i =
      if ∃ c ∈ P, g.dim.try_linearize c = some i
      then (g.cells.get? i).map fun cell => { cell with ship := v }
      else g.cells.get? i := by
  induction P generalizing g with
  | nil => simp [Grid.writeShips]
  | cons c P ih =>
    show ((g.setShip c v).writeShips v P).cells.get? i = _
    rw [ih, Grid.setShip_dim, Grid.setShip_get?]
    by_cases hc : g.dim.try_linearize c = some i
    · by_cases hP : ∃ c' ∈ P, g.dim.try_linearize c' = some i
      · rw [if_pos hP, if_pos hc, gridcell_set_ship_idem,
          if_pos (by exact ⟨c, List.mem_cons_self c P, hc⟩)]
      · rw [if_neg hP, if_pos hc, if_pos (by exact ⟨c, List.mem_cons_self c P, hc⟩)]
    · by_cases hP : ∃ c' ∈ P, g.dim.try_linearize c' = some i
      · rw [if_pos hP, if_neg hc, if_pos (by
          obtain ⟨c', hc', h⟩ := hP
          exact ⟨c', List.mem_cons_of_mem c hc', h⟩)]
      · rw [if_neg hP, if_neg hc, if_neg (by
          rintro ⟨c', hc', h⟩
          rcases List.mem_cons.mp hc' with rfl | hmem
          · exact hc h
          · exact hP ⟨c', hmem, h⟩)]

theorem Grid.eq_of_parts (g₁ g₂ : Grid I C) (hd : g₁.dim = g₂.dim)
    (hc : g₁.cells = g₂.cells) : g₁ = g₂ := by
  cases g₁; cases g₂
  cases hd; cases hc
  rfl

theorem writeShips_restore [DecidableEq C] (g : Grid I C) (id : I) (P : List C)
    (hfree : ∀ c ∈ P, ∃ cell, g.get c = some cell ∧ cell.ship = none) :
    (g.writeShips (some id) P).writeShips none P = g := by
  apply Grid.eq_of_parts
  · rw [Grid.writeShips_dim, Grid.writeShips_dim]
  · apply List.ext_get?
    intro i
    rw [Grid.writeShips_get?, Grid.writeShips_dim, Grid.writeShips_get?]
    by_cases hP : ∃ c ∈ P, g.dim.try_linearize c = some i
    · rw [if_pos hP, if_pos hP]
      obtain ⟨c, hcP, hlin⟩ := hP
      obtain ⟨cell, hget, hship⟩ := hfree c hcP
      have hcells : g.cells.get? i = some cell := by
        unfold Grid.get at hget
        rwa [hlin, Option.some_bind] at hget
      rw [hcells]
      show some _ = some cell
      cases cell
      cases hship
      rfl
    · rw [if_neg hP, if_neg hP]

theorem checkCells_ok_iff (g : Grid I C) (P : List C) :
    checkCells g P = .ok () ↔ ∀ c ∈ P, ∃ cell, g.get c = some cell ∧ cell.ship = none := by
  induction P with
  | nil => simp [checkCells]
  | cons c P ih =>
    rw [List.forall_mem_cons]
    unfold checkCells
    cases hg : g.get c with
    | none => simp [hg]
    | some cell =>
      cases hs : cell.ship with
      | none => simp [hg, hs, ih]
      | some s => simp [hg, hs]

theorem entryPlace_ok_iff (id : I) (g : Grid I C) (info : ShipInfo C) (proj : List C) :
    (entryPlace id g info proj).1 = .ok () ↔
      info.placement = none ∧ info.valid proj = true ∧ checkCells g proj = .ok () := by
  unfold entryPlace
  cases hp : info.placement with
  | some P => simp [hp]
  | none =>
    cases hv : info.valid proj with
    | false => simp [hp, hv]
    | true =>
      cases hc : checkCells g proj with
      | ok u => cases u; simp [hp, hv, hc]
      | error e => simp [hp, hv, hc]

theorem entryPlace_ok_state (id : I) (g : Grid I C) (info : ShipInfo C) (proj : List C)
    (h : (entryPlace id g info proj).1 = .ok ()) :
    (entryPlace id g info proj).2
      = (g.writeShips (some id) proj, { info with placement := some proj }) := by
  obtain ⟨hp, hv, hc⟩ := (entryPlace_ok_iff id g info proj).mp h
  unfold entryPlace
  rw [hp, hv, hc]
  rfl

theorem entryPlace_error_state (id : I) (g : Grid I C) (info : ShipInfo C) (proj : List C)
    (h : (entryPlace id g info proj).1 ≠ .ok ()) :
    (entryPlace id g info proj).2 = (g, info) := by
  cases hp : info.placement with
  | some P => unfold entryPlace; rw [hp]; rfl
  | none =>
    cases hv : info.valid proj with
    | false => unfold entryPlace; rw [hp, hv]; rfl
    | true =>
      cases hc : checkCells g proj with
      | ok u =>
        cases u
        exact absurd ((entryPlace_ok_iff id g info proj).mpr ⟨hp, hv, hc⟩) h
      | error e => unfold entryPlace; rw [hp, hv, hc]; rfl

/-- C5: `ShipEntryMut::place` succeeds exactly when `check_placement` does and
returns the same reason on failure, and a failed `place` mutates nothing: the
grid (and the entry) are exactly their pre-call values. -/
theorem C5_place_iff_check_placement (id : I) (g : Grid I C) (info : ShipInfo C)
    (proj : List C) :
    (entryPlace id g info proj).1 = checkPlacement g info proj ∧
      ∀ e, checkPlacement g info proj = .error e →
        (entryPlace id g info proj).2 = (g, info) := by
  have h1 : (entryPlace id g info proj).1 = checkPlacement g info proj := by
    unfold entryPlace checkPlacement
    cases hp : info.placement with
    | some P => rfl
    | none =>
      cases hv : info.valid proj with
      | false => rfl
      | true =>
        cases hc : checkCells g proj with
        | ok u => cases u; rfl
        | error e => rfl
  refine ⟨h1, fun e he => entryPlace_error_state id g info proj ?_⟩
  rw [h1, he]
  simp

/-- Witness for C5 at a concrete failing input (the entry is already placed). -/
theorem C5_place_iff_check_placement_witness :
    (entryPlace 0 wGrid wInfoPlaced [0]).2 = (wGrid, wInfoPlaced) :=
  (C5_place_iff_check_placement 0 wGrid wInfoPlaced [0]).2 .AlreadyPlaced rfl

/-- C7: immediately after a successful `place(id, P)`, `unplace` returns
`some P` and restores the grid (and the entry) to the exact pre-place state;
a second consecutive `unplace` returns `none` and changes nothing. -/
theorem C7_unplace_after_place [DecidableEq C] (id : I) (g : Grid I C) (info : ShipInfo C)
    (proj : List C) (hok : (entryPlace id g info proj).1 = .ok ()) :
    entryUnplace (entryPlace id g info proj).2.1 (entryPlace id g info proj).2.2
        = (some proj, g, info) ∧
      entryUnplace g info = (none, g, info) := by
  obtain ⟨v, pj, pl⟩ := info
  obtain ⟨hp, hv, hc⟩ := (entryPlace_ok_iff id g ⟨v, pj, pl⟩ proj).mp hok
  have hpl : pl = none := hp
  subst hpl
  have hst := entryPlace_ok_state id g ⟨v, pj, none⟩ proj hok
  rw [hst]
  constructor
  · show (some proj, (g.writeShips (some id) proj).writeShips none proj,
        (⟨v, pj, none⟩ : ShipInfo C)) = _
    rw [writeShips_restore g id proj ((checkCells_ok_iff g proj).mp hc)]
  · rfl

/-- Witness for C7 at a concrete successful placement. -/
theorem C7_unplace_after_place_witness :
    entryUnplace (entryPlace 0 wGrid wInfoFree [0]).2.1 (entryPlace 0 wGrid wInfoFree [0]).2.2
        = (some [0], wGrid, wInfoFree) ∧
      entryUnplace wGrid wInfoFree = (none, wGrid, wInfoFree) :=
  C7_unplace_after_place 0 wGrid wInfoFree [0] rfl

/-- C8: for valid rectangular dimensions (positive sides, non-overflowing
area), linearization inverts un-linearization on every index below
`total_size`, totally and in the checked variant. -/
theorem C8_linearize_roundtrip (d : RectDims) (hw : 0 < d.width) (_hh : 0 < d.height)
    (_hov : d.width * d.height ≤ 2 ^ 64 - 1) (i : Nat) (hi : i < d.total_size) :
    d.linearize (d.un_linearize i) = i ∧ d.try_linearize (d.un_linearize i) = some i := by
  have hx : i % d.width < d.width := Nat.mod_lt _ hw
  have hy : i / d.width < d.height := by
    rw [Nat.div_lt_iff_lt_mul hw]
    calc i < d.total_size := hi
      _ = d.height * d.width := Nat.mul_comm _ _
  have hlin : d.try_linearize (d.un_linearize i) = some i := by
    unfold RectDims.try_linearize RectDims.check_bounds RectDims.un_linearize
    rw [if_pos (⟨hx, hy⟩ : _ ∧ _)]
    simp only [Option.map_some']
    rw [Nat.mul_comm (i / d.width) d.width]
    exact congrArg some (Nat.div_add_mod i d.width)
  exact ⟨by rw [RectDims.linearize, hlin]; rfl, hlin⟩

/-- Witness for C8 on the default 10×10 board at index 37. -/
theorem C8_linearize_roundtrip_witness :
    rect10.linearize (rect10.un_linearize 37) = 37 ∧
      rect10.try_linearize (rect10.un_linearize 37) = some 37 :=
  C8_linearize_roundtrip rect10 (by decide) (by decide) (by decide) 37 (by decide)

/-- C1 (code-bug evidence): on the fresh facade setup,
`place_ship(P1, Carrier, (0,0), Right)` fails with `InsufficientSpace` instead
of succeeding, and the placement `[(0,0),(1,0),(2,0),(3,0),(4,0)]` that the
spec attributes to `Right` is recorded by `Left`: `Orientation::check_dir`
pairs every orientation with the opposite direction of extension. -/
theorem C1_facade_right_is_inverted :
    (simplePlace simpleNewSetup .P1 .Carrier ⟨0, 0⟩ .Right).map Prod.fst
        = some (.error .InsufficientSpace) ∧
      (simplePlace simpleNewSetup .P1 .Carrier ⟨0, 0⟩ .Left).map
          (fun r => (r.1, placementOf r.2 .P1 .Carrier))
        = some (.ok (), some [⟨0, 0⟩, ⟨1, 0⟩, ⟨2, 0⟩, ⟨3, 0⟩, ⟨4, 0⟩]) := by
  constructor
  · rfl
  · rfl

/-- C2 (code-bug evidence): on the fresh facade setup,
`place_ship(P1, Carrier, (7,0), Right)` does not fail with
`InsufficientSpace`: the inverted `check_dir` selects the leftward projection
and records `[(7,0),(6,0),(5,0),(4,0),(3,0)]`. -/
theorem C2_facade_off_edge_right_succeeds :
    (simplePlace simpleNewSetup .P1 .Carrier ⟨7, 0⟩ .Right).map
        (fun r => (r.1, placementOf r.2 .P1 .Carrier))
      = some (.ok (), some [⟨7, 0⟩, ⟨6, 0⟩, ⟨5, 0⟩, ⟨4, 0⟩, ⟨3, 0⟩]) := by
  rfl

theorem shipAt_iff (b : BoardSetupState I C) (i : Nat) (s : I) :
    ShipAt b i s ↔ ∃ cell, b.grid.cells.get? i = some cell ∧ cell.ship = some s :=
  Iff.rfl

theorem setupInv_congr [DecidableEq I] (g : Grid I C) (l l' : List (I × ShipInfo C))
    (hl : ∀ t, l'.lookup t = l.lookup t) (h : SetupInv ⟨g, l⟩) : SetupInv ⟨g, l'⟩ := by
  obtain ⟨h1, h2⟩ := h
  constructor
  · intro i s hs
    obtain ⟨info, P, hlk, hpl, hc⟩ := h1 i s hs
    exact ⟨info, P, (hl s).trans hlk, hpl, hc⟩
  · intro s info P hlk hpl c hc
    exact h2 s info P ((hl s).symm.trans hlk) hpl c hc

theorem setupInv_new [DecidableEq I] (dim : DimModel C) :
    SetupInv (BoardSetupState.new I dim) := by
  constructor
  · intro i s hs
    obtain ⟨cell, hcell, hship⟩ := hs
    have hmem : cell ∈ List.replicate dim.total_size (⟨none, false⟩ : GridCell I) :=
      List.get?_mem hcell
    rw [List.eq_of_mem_replicate hmem] at hship
    simp at hship
  · intro s info P hlk
    simp [BoardSetupState.new, List.lookup] at hlk

theorem setupInv_entryPlace [DecidableEq I] [DecidableEq C] (b : BoardSetupState I C)
    (id : I) (info : ShipInfo C) (proj : List C) (hlk : b.ships.lookup id = some info)
    (h : SetupInv b) :
    SetupInv ⟨(entryPlace id b.grid info proj).2.1,
      replaceVal id (entryPlace id b.grid info proj).2.2 b.ships⟩ := by
  by_cases hok : (entryPlace id b.grid info proj).1 = .ok ()
  case neg =>
    rw [entryPlace_error_state id b.grid info proj hok]
    refine setupInv_congr b.grid b.ships _ (fun t => ?_) h
    by_cases ht : t = id
    · subst ht; rw [lookup_replaceVal_self info hlk, hlk]
    · exact lookup_replaceVal_ne info ht
  case pos =>
    obtain ⟨hpnone, hval, hcells⟩ := (entryPlace_ok_iff id b.grid info proj).mp hok
    rw [entryPlace_ok_state id b.grid info proj hok]
    have hfree := (checkCells_ok_iff b.grid proj).mp hcells
    obtain ⟨h1, h2⟩ := h
    constructor
    · intro i s hs
      obtain ⟨cell', hcell', hship'⟩ := hs
      rw [Grid.writeShips_get?] at hcell'
      by_cases hP : ∃ c ∈ proj, b.grid.dim.try_linearize c = some i
      · rw [if_pos hP] at hcell'
        cases hcold : b.grid.cells.get? i with
        | none => rw [hcold] at hcell'; simp at hcell'
        | some cell =>
          rw [hcold] at hcell'
          simp only [Option.map_some', Option.some.injEq] at hcell'
          rw [← hcell'] at hship'
          simp only [] at hship'
          have hsid : id = s := by simpa using hship'
          subst hsid
          refine ⟨{ info with placement := some proj }, proj,
            lookup_replaceVal_self _ hlk, rfl, ?_⟩
          obtain ⟨c, hcP, hlin⟩ := hP
          exact ⟨c, hcP, by rw [Grid.writeShips_dim]; exact hlin⟩
      · rw [if_neg hP] at hcell'
        obtain ⟨info₀, P₀, hlk₀, hpl₀, c₀, hc₀, hlin₀⟩ := h1 i s ⟨cell', hcell', hship'⟩
        by_cases hsid : s = id
        · subst hsid
          rw [hlk] at hlk₀
          cases hlk₀
          rw [hpnone] at hpl₀
          cases hpl₀
        · refine ⟨info₀, P₀, ?_, hpl₀, c₀, hc₀, ?_⟩
          · rw [lookup_replaceVal_ne _ hsid]; exact hlk₀
          · rw [Grid.writeShips_dim]; exact hlin₀
    · intro s info₂ P₂ hlks hpl₂ c hcP
      by_cases hsid : s = id
      · subst hsid
        rw [lookup_replaceVal_self _ hlk] at hlks
        cases hlks
        simp only [] at hpl₂
        have hP₂ : proj = P₂ := by simpa using hpl₂
        subst hP₂
        obtain ⟨cell, hget, hship⟩ := hfree c hcP
        unfold Grid.get at hget
        cases hlin : b.grid.dim.try_linearize c with
        | none => rw [hlin] at hget; simp at hget
        | some i =>
          rw [hlin, Option.some_bind] at hget
          refine ⟨i, by rw [Grid.writeShips_dim]; exact hlin, ?_⟩
          refine ⟨{ cell with ship := some s }, ?_, rfl⟩
          rw [Grid.writeShips_get?, if_pos ⟨c, hcP, hlin⟩, hget]
          rfl
      · rw [lookup_replaceVal_ne _ hsid] at hlks
        obtain ⟨i, hlin, cell, hcell, hship⟩ := h2 s info₂ P₂ hlks hpl₂ c hcP
        refine ⟨i, by rw [Grid.writeShips_dim]; exact hlin, ?_⟩
        refine ⟨cell, ?_, hship⟩
        rw [Grid.writeShips_get?]
        by_cases hP : ∃ c' ∈ proj, b.grid.dim.try_linearize c' = some i
        · obtain ⟨c', hc', hlin'⟩ := hP
          obtain ⟨cellF, hgetF, hshipF⟩ := hfree c' hc'
          unfold Grid.get at hgetF
          rw [hlin', Option.some_bind] at hgetF
          rw [hgetF] at hcell
          cases hcell
          rw [hship] at hshipF
          cases hshipF
        · rw [if_neg hP]; exact hcell

theorem setupInv_entryUnplace [DecidableEq I] [DecidableEq C] (b : BoardSetupState I C)
    (id : I) (info : ShipInfo C) (hlk : b.ships.lookup id = some info)
    (h : SetupInv b) :
    SetupInv ⟨(entryUnplace b.grid info).2.1,
      replaceVal id (entryUnplace b.grid info).2.2 b.ships⟩ := by
  cases hpl : info.placement with
  | none =>
    have hun : entryUnplace b.grid info = (none, b.grid, info) := by
      unfold entryUnplace; rw [hpl]
    rw [hun]
    refine setupInv_congr b.grid b.ships _ (fun t => ?_) h
    by_cases ht : t = id
    · subst ht; rw [lookup_replaceVal_self info hlk, hlk]
    · exact lookup_replaceVal_ne info ht
  | some P =>
    have hun : entryUnplace b.grid info
        = (some P, b.grid.writeShips none P, { info with placement := none }) := by
      unfold entryUnplace; rw [hpl]
    rw [hun]
    obtain ⟨h1, h2⟩ := h
    constructor
    · intro i s hs
      obtain ⟨cell', hcell', hship'⟩ := hs
      rw [Grid.writeShips_get?] at hcell'
      by_cases hP : ∃ c ∈ P, b.grid.dim.try_linearize c = some i
      · rw [if_pos hP] at hcell'
        cases hcold : b.grid.cells.get? i with
        | none => rw [hcold] at hcell'; simp at hcell'
        | some cell =>
          rw [hcold] at hcell'
          simp only [Option.map_some', Option.some.injEq] at hcell'
          rw [← hcell'] at hship'
          simp at hship'
      · rw [if_neg hP] at hcell'
        obtain ⟨info₀, P₀, hlk₀, hpl₀, c₀, hc₀, hlin₀⟩ := h1 i s ⟨cell', hcell', hship'⟩
        by_cases hsid : s = id
        · subst hsid
          rw [hlk] at hlk₀
          cases hlk₀
          rw [hpl] at hpl₀
          cases hpl₀
          exact absurd ⟨c₀, hc₀, hlin₀⟩ hP
        · refine ⟨info₀, P₀, ?_, hpl₀, c₀, hc₀, ?_⟩
          · rw [lookup_replaceVal_ne _ hsid]; exact hlk₀
          · rw [Grid.writeShips_dim]; exact hlin₀
    · intro s info₂ P₂ hlks hpl₂ c hcP
      by_cases hsid : s = id
      · subst hsid
        rw [lookup_replaceVal_self _ hlk] at hlks
        cases hlks
        simp at hpl₂
      · rw [lookup_replaceVal_ne _ hsid] at hlks
        obtain ⟨i, hlin, cell, hcell, hship⟩ := h2 s info₂ P₂ hlks hpl₂ c hcP
        refine ⟨i, by rw [Grid.writeShips_dim]; exact hlin, ?_⟩
        refine ⟨cell, ?_, hship⟩
        rw [Grid.writeShips_get?]
        by_cases hP : ∃ c' ∈ P, b.grid.dim.try_linearize c' = some i
        · obtain ⟨c', hc', hlin'⟩ := hP
          obtain ⟨i', hlin'', cell₀, hcell₀, hship₀⟩ := h2 id info P hlk hpl c' hc'
          rw [hlin'] at hlin''
          cases hlin''
          rw [hcell₀] at hcell
          cases hcell
          rw [hship₀] at hship
          cases hship
          exact absurd rfl hsid
        · rw [if_neg hP]; exact hcell

theorem setupInv_addShip [DecidableEq I] (b : BoardSetupState I C) (id : I)
    (v : List C → Bool) (pj : C → List (List C)) (h : SetupInv b) :
    SetupInv (bsAddShip b id v pj) := by
  unfold bsAddShip
  cases hlk : b.ships.lookup id with
  | some info => exact h
  | none =>
    obtain ⟨h1, h2⟩ := h
    constructor
    · intro i s hs
      obtain ⟨info, P, hlks, hpl, hc⟩ := h1 i s hs
      exact ⟨info, P, lookup_append_some _ hlks, hpl, hc⟩
    · intro s info P hlks hpl c hc
      cases hold : b.ships.lookup s with
      | some u =>
        rw [lookup_append_some _ hold] at hlks
        cases hlks
        exact h2 s info P hold hpl c hc
      | none =>
        rw [lookup_append_none _ hold, lookup_cons] at hlks
        by_cases hsid : s = id
        · rw [if_pos hsid] at hlks
          cases hlks
          simp at hpl
        · rw [if_neg hsid] at hlks
          simp [List.lookup] at hlks

theorem setupInv_op [DecidableEq I] [DecidableEq C] (b : BoardSetupState I C)
    (op : SetupOp I C) (h : SetupInv b) : SetupInv (applySetupOp b op) := by
  cases op with
  | addShip id v pj => exact setupInv_addShip b id v pj h
  | place id proj =>
    show SetupInv (match bsPlace b id proj with | some r => r.2 | none => b)
    unfold bsPlace
    cases hlk : b.ships.lookup id with
    | none => exact h
    | some info =>
      simp only [Option.map_some']
      exact setupInv_entryPlace b id info proj hlk h
  | unplace id =>
    show SetupInv (match bsUnplace b id with | some r => r.2 | none => b)
    unfold bsUnplace
    cases hlk : b.ships.lookup id with
    | none => exact h
    | some info =>
      simp only [Option.map_some']
      exact setupInv_entryUnplace b id info hlk h

theorem setupInv_foldl [DecidableEq I] [DecidableEq C] (ops : List (SetupOp I C))
    (b : BoardSetupState I C) (h : SetupInv b) :
    SetupInv (ops.foldl applySetupOp b) := by
  induction ops generalizing b with
  | nil => exact h
  | cons op ops ih => exact ih _ (setupInv_op b op h)

/-- C6: after any sequence of setup calls (ship registration, `place`,
`unplace`) starting from a fresh board, invariants (I1) and (I2) hold — a cell
holds ship `s` exactly when it is the image of a coordinate of `s`'s recorded
placement, so cells of unplaced ships hold `none`. -/
theorem C6_place_unplace_invariant [DecidableEq I] [DecidableEq C] (dim : DimModel C)
    (ops : List (SetupOp I C)) :
    SetupInv (ops.foldl applySetupOp (BoardSetupState.new I dim)) :=
  setupInv_foldl ops _ (setupInv_new dim)

/-- C4: `Board::shoot` resolves exactly in the specified order (already
defeated, then bounds by `try_linearize`, then already-shot, then hit
resolution on the updated board), on every board whose grid is well-formed and
whose occupied cells name registered ships. -/
theorem C4_shoot_resolution_order [DecidableEq I] (b : BoardState I C) (c : C)
    (hwf : GridWF b.grid) (hreg : BoardRegistered b) :
    boardShoot b c = shootSpecOrder b c := by
  unfold boardShoot shootSpecOrder Grid.cellAt Grid.get
  cases hdef : b.defeated with
  | true => rfl
  | false =>
    cases hlin : b.grid.dim.try_linearize c with
    | none => rfl
    | some i =>
      simp only [Option.some_bind]
      have hi : i < b.grid.cells.length := by
        rw [hwf.1]; exact hwf.2 c i hlin
      cases hcell : b.grid.cells.get? i with
      | none =>
        rw [List.get?_eq_none] at hcell
        omega
      | some cell =>
        simp only [Option.getD_some]
        cases hhit : cell.hit with
        | true => rfl
        | false =>
          cases hship : cell.ship with
          | none => rfl
          | some id =>
            have hsome : (b.ships.lookup id).isSome := by
              apply hreg i cell _ id hship
              exact hcell
            obtain ⟨P, hP⟩ := Option.isSome_iff_exists.mp hsome
            simp only [hP, Option.map_some', Option.getD_some]

/-- Witness for C4 on a concrete one-cell board. -/
theorem C4_shoot_resolution_order_witness :
    boardShoot wBoard 0 = shootSpecOrder wBoard 0 :=
  C4_shoot_resolution_order wBoard 0
    ⟨rfl, by
      intro c i h
      by_cases hc : c = 0
      · simp [wBoard, wDim, hc] at h
        simp [wBoard, wDim]
        omega
      · simp [wBoard, wDim, hc] at h⟩
    (by
      intro i cell hcell s hship
      cases i with
      | zero =>
        simp [wBoard] at hcell
        rw [← hcell] at hship
        simp at hship
        subst hship
        rfl
      | succ n => simp [wBoard] at hcell)

theorem gameShoot_fields [DecidableEq P] [DecidableEq I] (g : GameState P I C) (t : P) (c : C) :
    (gameShoot g t c).2.current = g.current ∧ (gameShoot g t c).2.turnOrder = g.turnOrder := by
  unfold gameShoot
  split
  · exact ⟨rfl, rfl⟩
  split
  · exact ⟨rfl, rfl⟩
  cases hlk : g.boards.lookup t with
  | none => exact ⟨rfl, rfl⟩
  | some b =>
    rcases hbs : boardShoot b c with ⟨res, b2⟩
    simp only [hbs]
    cases res with
    | error e => exact ⟨rfl, rfl⟩
    | ok o =>
      cases o with
      | Defeated id => dsimp only; split <;> exact ⟨rfl, rfl⟩
      | Miss => exact ⟨rfl, rfl⟩
      | Hit id => exact ⟨rfl, rfl⟩
      | Sunk id => exact ⟨rfl, rfl⟩

theorem applyShots_fields [DecidableEq P] [DecidableEq I] (g : GameState P I C)
    (shots : List (P × C)) :
    (applyShots g shots).current = g.current ∧ (applyShots g shots).turnOrder = g.turnOrder := by
  induction shots generalizing g with
  | nil => exact ⟨rfl, rfl⟩
  | cons tc shots ih =>
    have h1 := gameShoot_fields g tc.1 tc.2
    have h2 := ih ((gameShoot g tc.1 tc.2).2)
    exact ⟨h2.1.trans h1.1, h2.2.trans h1.2⟩

theorem gameShoot_turnInv [DecidableEq P] [DecidableEq I] (g : GameState P I C)
    (t : P) (c : C) (h : GameTurnInv g) : GameTurnInv (gameShoot g t c).2 := by
  obtain ⟨hc, p₀, b₀, hp₀, hb₀, hdef⟩ := h
  unfold gameShoot
  split
  · exact ⟨hc, p₀, b₀, hp₀, hb₀, hdef⟩
  case isFalse hwin =>
  split
  case isTrue hself =>
    exact ⟨hc, p₀, b₀, hp₀, hb₀, hdef⟩
  case isFalse hself =>
  cases hlk : g.boards.lookup t with
  | none => exact ⟨hc, p₀, b₀, hp₀, hb₀, hdef⟩
  | some b =>
    have hts : t ≠ p₀ := by
      intro he
      subst he
      apply hself
      unfold GameState.currentPlayer
      rw [hc, hp₀]
    rcases hbs : boardShoot b c with ⟨res, b2⟩
    have hlkp : (replaceVal t b2 g.boards).lookup p₀ = some b₀ := by
      rw [lookup_replaceVal_ne _ (Ne.symm hts)]
      exact hb₀
    simp only [hbs]
    cases res with
    | error e => exact ⟨hc, p₀, b₀, hp₀, hlkp, hdef⟩
    | ok o =>
      cases o with
      | Defeated id => dsimp only; split <;> exact ⟨hc, p₀, b₀, hp₀, hlkp, hdef⟩
      | Miss => exact ⟨hc, p₀, b₀, hp₀, hlkp, hdef⟩
      | Hit id => exact ⟨hc, p₀, b₀, hp₀, hlkp, hdef⟩
      | Sunk id => exact ⟨hc, p₀, b₀, hp₀, hlkp, hdef⟩

theorem applyShots_turnInv [DecidableEq P] [DecidableEq I] (g : GameState P I C)
    (shots : List (P × C)) (h : GameTurnInv g) : GameTurnInv (applyShots g shots) := by
  induction shots generalizing g with
  | nil => exact h
  | cons tc shots ih => exact ih _ (gameShoot_turnInv g tc.1 tc.2 h)

theorem winner_of_turnInv [DecidableEq P] (g : GameState P I C) (h : GameTurnInv g) :
    (g.remaining = 1 → ∃ p b, g.winner = some p ∧ g.boards.lookup p = some b ∧
        b.defeated = false) ∧
      (1 < g.remaining → g.winner = none) := by
  obtain ⟨hc, p₀, b₀, hp₀, hb₀, hdef⟩ := h
  constructor
  · intro hrem
    refine ⟨p₀, b₀, ?_, hb₀, hdef⟩
    unfold GameState.winner
    rw [if_pos hrem]
    unfold GameState.currentPlayer
    rw [hc, hp₀]
  · intro hrem
    unfold GameState.winner
    rw [if_neg (by omega)]

theorem gridHitsClear_new (dim : DimModel C) : GridHitsClear (Grid.new I dim) := by
  intro i cell hcell
  rw [List.eq_of_mem_replicate (List.get?_mem hcell)]

theorem gridHitsClear_writeShips [DecidableEq C] (g : Grid I C) (v : Option I) (P : List C)
    (h : GridHitsClear g) : GridHitsClear (g.writeShips v P) := by
  intro i cell hcell
  rw [Grid.writeShips_get?] at hcell
  by_cases hP : ∃ c ∈ P, g.dim.try_linearize c = some i
  · rw [if_pos hP] at hcell
    cases hcold : g.cells.get? i with
    | none => rw [hcold] at hcell; simp at hcell
    | some cell₀ =>
      rw [hcold] at hcell
      simp only [Option.map_some', Option.some.injEq] at hcell
      rw [← hcell]
      exact h i cell₀ hcold
  · rw [if_neg hP] at hcell
    exact h i cell hcell

theorem shipsNonempty_entryPlace [DecidableEq I] (ships : List (I × ShipInfo C))
    (id : I) (info : ShipInfo C) (g : Grid I C) (proj : List C)
    (hlk : ships.lookup id = some info) (h : ShipsNonempty ships) :
    ShipsNonempty (replaceVal id (entryPlace id g info proj).2.2 ships) := by
  intro s info₂ hlks
  by_cases hsid : s = id
  · subst hsid
    rw [lookup_replaceVal_self _ hlk] at hlks
    cases hlks
    by_cases hok : (entryPlace s g info proj).1 = .ok ()
    · obtain ⟨hpnone, hval, hcells⟩ := (entryPlace_ok_iff s g info proj).mp hok
      rw [entryPlace_ok_state s g info proj hok]
      refine ⟨(h s info hlk).1, ?_⟩
      intro P hP
      have : proj = P := by simpa using hP
      subst this
      exact (h s info hlk).1 proj hval
    · rw [entryPlace_error_state s g info proj hok]
      exact h s info hlk
  · rw [lookup_replaceVal_ne _ hsid] at hlks
    exact h s info₂ hlks

theorem shipsNonempty_entryUnplace [DecidableEq I] (ships : List (I × ShipInfo C))
    (id : I) (info : ShipInfo C) (g : Grid I C)
    (hlk : ships.lookup id = some info) (h : ShipsNonempty ships) :
    ShipsNonempty (replaceVal id (entryUnplace g info).2.2 ships) := by
  intro s info₂ hlks
  by_cases hsid : s = id
  · subst hsid
    rw [lookup_replaceVal_self _ hlk] at hlks
    cases hlks
    cases hpl : info.placement with
    | none =>
      have hun : entryUnplace g info = (none, g, info) := by
        unfold entryUnplace; rw [hpl]
      rw [hun]
      exact h s info hlk
    | some P =>
      have hun : entryUnplace g info = (some P, g.writeShips none P,
          { info with placement := none }) := by
        unfold entryUnplace; rw [hpl]
      rw [hun]
      refine ⟨(h s info hlk).1, ?_⟩
      intro P₂ hP₂
      simp at hP₂
  · rw [lookup_replaceVal_ne _ hsid] at hlks
    exact h s info₂ hlks

theorem shipsNonempty_addShip [DecidableEq I] (ships : List (I × ShipInfo C))
    (id : I) (v : List C → Bool) (pj : C → List (List C))
    (hv : ∀ p, v p = true → p ≠ []) (h : ShipsNonempty ships) :
    ShipsNonempty (ships ++ [(id, ⟨v, pj, none⟩)]) := by
  intro s info₂ hlks
  cases hold : ships.lookup s with
  | some u =>
    rw [lookup_append_some _ hold] at hlks
    cases hlks
    exact h s info₂ hold
  | none =>
    rw [lookup_append_none _ hold, lookup_cons] at hlks
    by_cases hsid : s = id
    · rw [if_pos hsid] at hlks
      cases hlks
      exact ⟨hv, by intro P hP; simp at hP⟩
    · rw [if_neg hsid] at hlks
      simp [List.lookup] at hlks

theorem clean_applySetupOp [DecidableEq I] [DecidableEq C] (b : BoardSetupState I C)
    (op : SetupOp I C)
    (hop : match op with | .addShip _ v _ => ∀ p, v p = true → p ≠ [] | _ => True)
    (h : GridHitsClear b.grid ∧ ShipsNonempty b.ships) :
    GridHitsClear (applySetupOp b op).grid ∧ ShipsNonempty (applySetupOp b op).ships := by
  cases op with
  | addShip id v pj =>
    show GridHitsClear (bsAddShip b id v pj).grid ∧ ShipsNonempty (bsAddShip b id v pj).ships
    unfold bsAddShip
    cases hlk : b.ships.lookup id with
    | some info => exact h
    | none => exact ⟨h.1, shipsNonempty_addShip b.ships id v pj hop h.2⟩
  | place id proj =>
    show GridHitsClear (match bsPlace b id proj with | some r => r.2 | none => b).grid ∧
      ShipsNonempty (match bsPlace b id proj with | some r => r.2 | none => b).ships
    unfold bsPlace
    cases hlk : b.ships.lookup id with
    | none => exact h
    | some info =>
      simp only [Option.map_some']
      constructor
      · by_cases hok : (entryPlace id b.grid info proj).1 = .ok ()
        · rw [entryPlace_ok_state id b.grid info proj hok]
          exact gridHitsClear_writeShips b.grid _ proj h.1
        · rw [entryPlace_error_state id b.grid info proj hok]
          exact h.1
      · exact shipsNonempty_entryPlace b.ships id info b.grid proj hlk h.2
  | unplace id =>
    show GridHitsClear (match bsUnplace b id with | some r => r.2 | none => b).grid ∧
      ShipsNonempty (match bsUnplace b id with | some r => r.2 | none => b).ships
    unfold bsUnplace
    cases hlk : b.ships.lookup id with
    | none => exact h
    | some info =>
      simp only [Option.map_some']
      constructor
      · cases hpl : info.placement with
        | none =>
          have hun : entryUnplace b.grid info = (none, b.grid, info) := by
            unfold entryUnplace; rw [hpl]
          rw [hun]
          exact h.1
        | some P =>
          have hun : entryUnplace b.grid info = (some P, b.grid.writeShips none P,
              { info with placement := none }) := by
            unfold entryUnplace; rw [hpl]
          rw [hun]
          exact gridHitsClear_writeShips b.grid _ P h.1
      · exact shipsNonempty_entryUnplace b.ships id info b.grid hlk h.2

theorem uclean_applyUOp [DecidableEq P] [DecidableEq I] [DecidableEq C] (s : USetup P I C)
    (op : UOp P I C)
    (hop : match op with | .addShip _ _ v _ => ∀ p, v p = true → p ≠ [] | _ => True)
    (h : USetupClean s) : USetupClean (applyUOp s op) := by
  obtain ⟨hkeys, hboards⟩ := h
  have withBoard : ∀ (pid : P) (f : BoardSetupState I C → BoardSetupState I C),
      (∀ b, (GridHitsClear b.grid ∧ ShipsNonempty b.ships) →
        GridHitsClear (f b).grid ∧ ShipsNonempty (f b).ships) →
      USetupClean (uWithBoard s pid f) := by
    intro pid f hf
    unfold uWithBoard
    cases hlk : s.boards.lookup pid with
    | none => exact ⟨hkeys, hboards⟩
    | some b =>
      constructor
      · rw [replaceVal_map_fst]
        exact hkeys
      · intro p b₂ hlk₂
        by_cases hp : p = pid
        · subst hp
          rw [lookup_replaceVal_self _ hlk] at hlk₂
          cases hlk₂
          exact hf b (hboards p b hlk)
        · rw [lookup_replaceVal_ne _ hp] at hlk₂
          exact hboards p b₂ hlk₂
  cases op with
  | addPlayer pid dim =>
    show USetupClean (uAddPlayer s pid dim)
    unfold uAddPlayer
    cases hlk : s.boards.lookup pid with
    | some b => exact ⟨hkeys, hboards⟩
    | none =>
      constructor
      · rw [List.map_append, hkeys]
        rfl
      · intro p b₂ hlk₂
        cases hold : s.boards.lookup p with
        | some u =>
          rw [lookup_append_some _ hold] at hlk₂
          cases hlk₂
          exact hboards p b₂ hold
        | none =>
          rw [lookup_append_none _ hold, lookup_cons] at hlk₂
          by_cases hp : p = pid
          · rw [if_pos hp] at hlk₂
            cases hlk₂
            refine ⟨gridHitsClear_new dim, ?_⟩
            intro i info hi
            simp [BoardSetupState.new, List.lookup] at hi
          · rw [if_neg hp] at hlk₂
            simp [List.lookup] at hlk₂
  | addShip pid id v pj =>
    exact withBoard pid _ fun b hb => clean_applySetupOp b (.addShip id v pj) hop hb
  | place pid id proj =>
    exact withBoard pid _ fun b hb => clean_applySetupOp b (.place id proj) trivial hb
  | unplace pid id =>
    exact withBoard pid _ fun b hb => clean_applySetupOp b (.unplace id) trivial hb

theorem uclean_applyUOps [DecidableEq P] [DecidableEq I] [DecidableEq C] (s : USetup P I C)
    (ops : List (UOp P I C)) (hne : NonemptyShapes ops) (h : USetupClean s) :
    USetupClean (applyUOps s ops) := by
  induction ops generalizing s with
  | nil => exact h
  | cons op ops ih =>
    have hop := hne op (List.mem_cons_self op ops)
    have htail : NonemptyShapes ops := fun o ho => hne o (List.mem_cons_of_mem op ho)
    exact ih (applyUOp s op) htail (uclean_applyUOp s op hop h)

theorem uclean_empty (P I C : Type) [DecidableEq P] [DecidableEq I] :
    USetupClean (USetup.empty P I C) := by
  refine ⟨rfl, ?_⟩
  intro p b h
  simp [USetup.empty, List.lookup] at h

theorem boardStart_undefeated [DecidableEq I] (b : BoardSetupState I C)
    (hready : bsReady b = true) (hhits : GridHitsClear b.grid)
    (hne : ShipsNonempty b.ships) : (boardStart b).defeated = false := by
  unfold bsReady at hready
  rw [Bool.and_eq_true] at hready
  obtain ⟨hne', hall⟩ := hready
  cases hships : b.ships with
  | nil => rw [hships] at hne'; simp at hne'
  | cons kv rest =>
    obtain ⟨i₁, info₁⟩ := kv
    have hplaced : info₁.placement.isSome := by
      rw [hships] at hall
      rw [List.all_cons, Bool.and_eq_true] at hall
      exact hall.1
    obtain ⟨P₁, hP₁⟩ := Option.isSome_iff_exists.mp hplaced
    have hlk : b.ships.lookup i₁ = some info₁ := by
      rw [hships, lookup_cons, if_pos rfl]
    have hP₁ne : P₁ ≠ [] := (hne i₁ info₁ hlk).2 P₁ hP₁
    obtain ⟨c₁, P₁', hP₁cons⟩ := List.exists_cons_of_ne_nil hP₁ne
    have hhit : (b.grid.cellAt c₁).hit = false := by
      unfold Grid.cellAt Grid.get
      cases hl : b.grid.dim.try_linearize c₁ with
      | none => rfl
      | some j =>
        simp only [Option.some_bind]
        cases hcl : b.grid.cells.get? j with
        | none => rfl
        | some cell => simp only [Option.getD_some]; exact hhits j cell hcl
    have hsunk : shipSunk b.grid P₁ = false := by
      unfold shipSunk
      rw [hP₁cons, List.all_cons, hhit]
      rfl
    show (boardStart b).ships.all _ = false
    unfold boardStart
    rw [hships]
    simp only [List.filterMap_cons, hP₁, Option.map_some']
    rw [List.all_cons]
    show (shipSunk b.grid P₁ && _) = false
    rw [hsunk]
    rfl

theorem ustart_turnInv [DecidableEq P] [DecidableEq I] (s : USetup P I C)
    (g₀ : GameState P I C) (hclean : USetupClean s) (hstart : ustart s = some g₀) :
    GameTurnInv g₀ := by
  unfold ustart at hstart
  by_cases hrdy : uReady s = true
  case neg => rw [if_neg hrdy] at hstart; cases hstart
  case pos =>
  rw [if_pos hrdy] at hstart
  cases hstart
  unfold uReady at hrdy
  rw [Bool.and_eq_true, decide_eq_true_eq] at hrdy
  obtain ⟨hlen, hall⟩ := hrdy
  obtain ⟨hkeys, hboards⟩ := hclean
  obtain ⟨p₀, bs₀, rest, hbs⟩ : ∃ p₀ bs₀ rest, s.boards = (p₀, bs₀) :: rest := by
    cases h : s.boards with
    | nil => rw [h] at hlen; simp at hlen
    | cons pb rest => exact ⟨pb.1, pb.2, rest, rfl⟩
  have hlk₀ : s.boards.lookup p₀ = some bs₀ := by
    rw [hbs, lookup_cons, if_pos rfl]
  refine ⟨rfl, p₀, boardStart bs₀, ?_, ?_, ?_⟩
  · show s.turnOrder.get? 0 = some p₀
    rw [← hkeys, hbs]
    rfl
  · show ((s.boards.map fun pb => (pb.1, boardStart pb.2)).lookup p₀) = some (boardStart bs₀)
    rw [lookup_map_value, hlk₀]
    rfl
  · apply boardStart_undefeated
    · rw [hbs] at hall
      rw [List.all_cons, Bool.and_eq_true] at hall
      exact hall.1
    · exact (hboards p₀ bs₀ hlk₀).1
    · exact (hboards p₀ bs₀ hlk₀).2

/-- C3: in every uniform game reached by a setup run (with shapes honoring the
nonempty-projection contract), a start, and any sequence of shots, `winner`
returns the id of the owner of the single undefeated board when exactly one
board is undefeated, and nobody when more than one is. -/
theorem C3_winner_characterization [DecidableEq P] [DecidableEq I] [DecidableEq C]
    (uops : List (UOp P I C)) (hne : NonemptyShapes uops) (g₀ : GameState P I C)
    (hstart : ustart (applyUOps (USetup.empty P I C) uops) = some g₀)
    (shots : List (P × C)) :
    ((applyShots g₀ shots).remaining = 1 →
        ∃ p b, (applyShots g₀ shots).winner = some p ∧
          (applyShots g₀ shots).boards.lookup p = some b ∧ b.defeated = false) ∧
      (1 < (applyShots g₀ shots).remaining → (applyShots g₀ shots).winner = none) := by
  have hclean : USetupClean (applyUOps (USetup.empty P I C) uops) :=
    uclean_applyUOps _ uops hne (uclean_empty P I C)
  have hinv₀ : GameTurnInv g₀ := ustart_turnInv _ g₀ hclean hstart
  exact winner_of_turnInv _ (applyShots_turnInv g₀ shots hinv₀)

/-- Witness for C3: a two-player one-cell-board game, no shots fired. -/
theorem C3_winner_characterization_witness :
    ((applyShots wGame []).remaining = 1 →
        ∃ p b, (applyShots wGame []).winner = some p ∧
          (applyShots wGame []).boards.lookup p = some b ∧ b.defeated = false) ∧
      (1 < (applyShots wGame []).remaining → (applyShots wGame []).winner = none) :=
  C3_winner_characterization wUops
    (by
      intro op hop
      fin_cases hop
      · trivial
      · intro p hp
        have : p = [0] := by simpa using hp
        simp [this]
      · trivial
      · trivial
      · intro p hp
        have : p = [0] := by simpa using hp
        simp [this]
      · trivial)
    wGame (by rfl) []

theorem gameShoot_selfShot [DecidableEq P] [DecidableEq I] (g : GameState P I C)
    (t : P) (c : C) (h : (gameShoot g t c).1 = .error .SelfShot) :
    g.currentPlayer = some t := by
  unfold gameShoot at h
  split at h
  · simp at h
  split at h
  case isTrue hcp => exact hcp
  case isFalse hcp =>
  cases hlk : g.boards.lookup t with
  | none => rw [hlk] at h; simp at h
  | some b =>
    rw [hlk] at h
    dsimp only at h
    rcases hbs : boardShoot b c with ⟨res, b2⟩
    rw [hbs] at h
    cases res with
    | error e => cases e <;> simp [UCannotShootReason.ofBoard] at h
    | ok o =>
      cases o with
      | Defeated id =>
        dsimp only at h
        split at h <;> simp at h
      | Miss => simp [UShotOutcome.ofBoard] at h
      | Hit id => simp [UShotOutcome.ofBoard] at h
      | Sunk id => simp [UShotOutcome.ofBoard] at h

/-- C10: the turn index of a started uniform game is 0 forever — no public
operation modifies it, so `current()` is always the head of the insertion-order
turn list, and a `SelfShot` error identifies the target as that first-added
player. -/
theorem C10_turn_index_constant [DecidableEq P] [DecidableEq I] [DecidableEq C]
    (uops : List (UOp P I C)) (g₀ : GameState P I C)
    (hstart : ustart (applyUOps (USetup.empty P I C) uops) = some g₀)
    (shots : List (P × C)) :
    (applyShots g₀ shots).current = 0 ∧
      (applyShots g₀ shots).turnOrder = (applyUOps (USetup.empty P I C) uops).turnOrder ∧
      (applyShots g₀ shots).currentPlayer = (applyShots g₀ shots).turnOrder.get? 0 ∧
      ∀ t c, (gameShoot (applyShots g₀ shots) t c).1 = .error .SelfShot →
        (applyShots g₀ shots).turnOrder.get? 0 = some t := by
  have hg₀ : g₀.current = 0 ∧ g₀.turnOrder = (applyUOps (USetup.empty P I C) uops).turnOrder := by
    unfold ustart at hstart
    by_cases hrdy : uReady (applyUOps (USetup.empty P I C) uops) = true
    · rw [if_pos hrdy] at hstart
      cases hstart
      exact ⟨rfl, rfl⟩
    · rw [if_neg hrdy] at hstart
      cases hstart
  obtain ⟨hfc, hft⟩ := applyShots_fields g₀ shots
  have hcur : (applyShots g₀ shots).current = 0 := hfc.trans hg₀.1
  refine ⟨hcur, hft.trans hg₀.2, ?_, ?_⟩
  · unfold GameState.currentPlayer
    rw [hcur]
  · intro t c hss
    have := gameShoot_selfShot _ t c hss
    unfold GameState.currentPlayer at this
    rw [hcur] at this
    exact this

/-- Witness for C10 on the concrete two-player game, no shots fired. -/
theorem C10_turn_index_constant_witness :
    (applyShots wGame []).current = 0 ∧
      (applyShots wGame []).turnOrder = (applyUOps (USetup.empty Bool Nat Nat) wUops).turnOrder ∧
      (applyShots wGame []).currentPlayer = (applyShots wGame []).turnOrder.get? 0 ∧
      ∀ t c, (gameShoot (applyShots wGame []) t c).1 = .error .SelfShot →
        (applyShots wGame []).turnOrder.get? 0 = some t :=
  C10_turn_index_constant wUops wGame (by rfl) []

theorem boardShoot_alreadyDefeated [DecidableEq I] (b : BoardState I C) (c : C)
    (h : (boardShoot b c).1 = .error .AlreadyDefeated) : b.defeated = true := by
  unfold boardShoot at h
  split at h
  case isTrue hd => exact hd
  case isFalse hd =>
  exfalso
  split at h
  next heq => simp at h
  next cell heq =>
    split at h
    case isTrue hh => simp at h
    case isFalse hh =>
    try dsimp only at h
    split at h
    next hs => simp at h
    next sid hs =>
      try dsimp only at h
      split at h
      case isTrue hd2 => simp at h
      case isFalse hd2 =>
      split at h
      next P hlkP => split at h <;> simp at h
      next hlkP => simp at h

theorem boardShoot_defeated_result [DecidableEq I] (b : BoardState I C) (c : C) (id : I)
    (h : (boardShoot b c).1 = .ok (.Defeated id)) :
    (boardShoot b c).2.defeated = true := by
  unfold boardShoot at h ⊢
  split at h
  case isTrue hd => simp at h
  case isFalse hd =>
  rw [if_neg hd]
  split at h
  next heq => simp at h
  next cell heq =>
    split at h
    case isTrue hh => simp at h
    case isFalse hh =>
    rw [if_neg hh]
    dsimp only
    try dsimp only at h
    split at h
    next hs => simp at h
    next sid hs =>
      try dsimp only at h
      split at h
      case isTrue hd2 => rw [if_pos hd2]; exact hd2
      case isFalse hd2 =>
      rw [if_neg hd2]
      split at h
      next P hlkP => split at h <;> simp at h
      next hlkP => simp at h

theorem simpleShoot_total (g : GameState Player Ship Coordinate) (t : Player) (c : Coordinate)
    (h : SimpleTurnInv g) :
    ∃ res g', simpleShoot g t c = some (res, g') ∧ SimpleTurnInv g' := by
  obtain ⟨hc, hto, b1, b2, hb, hb1⟩ := h
  have hinv : SimpleTurnInv g := ⟨hc, hto, b1, b2, hb, hb1⟩
  have hcp : g.currentPlayer = some Player.P1 := by
    unfold GameState.currentPlayer
    rw [hc, hto]
    rfl
  by_cases hw : (g.winner).isSome = true
  · have hgs : gameShoot g t c = (.error .AlreadyOver, g) := by
      unfold gameShoot
      rw [if_pos hw]
    refine ⟨.error .AlreadyOver, g, ?_, hinv⟩
    unfold simpleShoot
    rw [hgs]
  · cases t with
    | P1 =>
      have hgs : gameShoot g Player.P1 c = (.error .SelfShot, g) := by
        unfold gameShoot
        rw [if_neg hw, if_pos (by rw [hcp])]
      refine ⟨.error .OutOfTurn, g, ?_, hinv⟩
      unfold simpleShoot
      rw [hgs]
    | P2 =>
      have hlk : g.boards.lookup Player.P2 = some b2 := by
        rw [hb]; rfl
      have hb2 : b2.defeated = false := by
        by_contra hbd
        rw [Bool.not_eq_false] at hbd
        have hwin : g.winner = some Player.P1 := by
          unfold GameState.winner GameState.remaining
          rw [hb, if_pos (by simp [hb1, hbd])]
          unfold GameState.currentPlayer
          rw [hc, hto]
          rfl
        rw [hwin] at hw
        simp at hw
      have hcp2 : ¬(g.currentPlayer = some Player.P2) := by
        rw [hcp]; simp
      rcases hbs : boardShoot b2 c with ⟨res, b2'⟩
      have hrep : replaceVal Player.P2 b2' g.boards = [(Player.P1, b1), (Player.P2, b2')] := by
        rw [hb]; rfl
      have hinv' : SimpleTurnInv ⟨replaceVal Player.P2 b2' g.boards, g.turnOrder, g.current⟩ :=
        ⟨hc, hto, b1, b2', hrep, hb1⟩
      cases res with
      | error e =>
        have hgs0 : gameShoot g Player.P2 c
            = (.error (UCannotShootReason.ofBoard e),
               ⟨replaceVal Player.P2 b2' g.boards, g.turnOrder, g.current⟩) := by
          unfold gameShoot
          rw [if_neg hw, if_neg hcp2, hlk]
          dsimp only
          rw [hbs]
        cases e with
        | AlreadyDefeated =>
          exfalso
          have hbd := boardShoot_alreadyDefeated b2 c (by rw [hbs])
          rw [hbd] at hb2
          simp at hb2
        | OutOfBounds =>
          refine ⟨.error .OutOfBounds, _, ?_, hinv'⟩
          unfold simpleShoot
          rw [hgs0]
          rfl
        | AlreadyShot =>
          refine ⟨.error .AlreadyShot, _, ?_, hinv'⟩
          unfold simpleShoot
          rw [hgs0]
          rfl
      | ok o =>
        cases o with
        | Miss =>
          have hgs0 : gameShoot g Player.P2 c
              = (.ok .Miss,
                 ⟨replaceVal Player.P2 b2' g.boards, g.turnOrder, g.current⟩) := by
            unfold gameShoot
            rw [if_neg hw, if_neg hcp2, hlk]
            dsimp only
            rw [hbs]
            rfl
          refine ⟨.ok .Miss, _, ?_, hinv'⟩
          unfold simpleShoot
          rw [hgs0]
        | Hit sid =>
          have hgs0 : gameShoot g Player.P2 c
              = (.ok (.Hit sid),
                 ⟨replaceVal Player.P2 b2' g.boards, g.turnOrder, g.current⟩) := by
            unfold gameShoot
            rw [if_neg hw, if_neg hcp2, hlk]
            dsimp only
            rw [hbs]
            rfl
          refine ⟨.ok (.Hit sid), _, ?_, hinv'⟩
          unfold simpleShoot
          rw [hgs0]
        | Sunk sid =>
          have hgs0 : gameShoot g Player.P2 c
              = (.ok (.Sunk sid),
                 ⟨replaceVal Player.P2 b2' g.boards, g.turnOrder, g.current⟩) := by
            unfold gameShoot
            rw [if_neg hw, if_neg hcp2, hlk]
            dsimp only
            rw [hbs]
            rfl
          refine ⟨.ok (.Sunk sid), _, ?_, hinv'⟩
          unfold simpleShoot
          rw [hgs0]
        | Defeated sid =>
          have hb2' : b2'.defeated = true := by
            have hres := boardShoot_defeated_result b2 c sid (by rw [hbs])
            rw [hbs] at hres
            exact hres
          have hcond : (((⟨replaceVal Player.P2 b2' g.boards, g.turnOrder, g.current⟩ :
              GameState Player Ship Coordinate)).winner).isSome = true := by
            have hwin2 : ((⟨replaceVal Player.P2 b2' g.boards, g.turnOrder, g.current⟩ :
                GameState Player Ship Coordinate)).winner = some Player.P1 := by
              unfold GameState.winner GameState.remaining
              dsimp only
              rw [hrep, if_pos (by simp [hb1, hb2'])]
              unfold GameState.currentPlayer
              dsimp only
              rw [hc, hto]
              rfl
            rw [hwin2]
            rfl
          have hgs0 : gameShoot g Player.P2 c
              = (.ok (.Victory sid),
                 ⟨replaceVal Player.P2 b2' g.boards, g.turnOrder, g.current⟩) := by
            unfold gameShoot
            rw [if_neg hw, if_neg hcp2, hlk]
            dsimp only
            rw [hbs]
            dsimp only
            rw [if_pos hcond]
          refine ⟨.ok (.Victory sid), _, ?_, hinv'⟩
          unfold simpleShoot
          rw [hgs0]

theorem lineValid_nonempty [DecidableEq C] (len : Nat) (d : DimModel C) (hlen : 0 < len)
    (p : List C) (h : lineValid len d p = true) : p ≠ [] := by
  intro hnil
  subst hnil
  unfold lineValid at h
  rw [if_pos (by simpa using hlen.ne)] at h
  cases h

theorem uclean_withBoard [DecidableEq P] [DecidableEq I] (s : USetup P I C) (pid : P)
    (f : BoardSetupState I C → BoardSetupState I C)
    (hf : ∀ b, GridHitsClear b.grid ∧ ShipsNonempty b.ships →
      GridHitsClear (f b).grid ∧ ShipsNonempty (f b).ships)
    (h : USetupClean s) : USetupClean (uWithBoard s pid f) := by
  obtain ⟨hkeys, hboards⟩ := h
  unfold uWithBoard
  cases hlk : s.boards.lookup pid with
  | none => exact ⟨hkeys, hboards⟩
  | some b =>
    constructor
    · rw [replaceVal_map_fst]
      exact hkeys
    · intro p b₂ hlk₂
      by_cases hp : p = pid
      · subst hp
        rw [lookup_replaceVal_self _ hlk] at hlk₂
        cases hlk₂
        exact hf b (hboards p b hlk)
      · rw [lookup_replaceVal_ne _ hp] at hlk₂
        exact hboards p b₂ hlk₂

theorem uWithBoard_turnOrder [DecidableEq P] (s : USetup P I C) (pid : P)
    (f : BoardSetupState I C → BoardSetupState I C) :
    (uWithBoard s pid f).turnOrder = s.turnOrder := by
  unfold uWithBoard
  cases s.boards.lookup pid <;> rfl

theorem simpleNewSetup_clean :
    simpleNewSetup.turnOrder = [Player.P1, Player.P2] ∧ USetupClean simpleNewSetup := by
  have hv : ∀ sh : Ship, ∀ p, shipShapeValid sh p = true → p ≠ [] := by
    intro sh p hp
    exact lineValid_nonempty sh.len rect10dm (by cases sh <;> decide) p hp
  have hadd : ∀ b : BoardSetupState Ship Coordinate,
      GridHitsClear b.grid ∧ ShipsNonempty b.ships →
      GridHitsClear (addSimpleShips b).grid ∧ ShipsNonempty (addSimpleShips b).ships := by
    intro b hb
    exact clean_applySetupOp _ (.addShip .Destroyer (shipShapeValid .Destroyer)
        (shipShapeProject .Destroyer)) (hv _)
      (clean_applySetupOp _ (.addShip .Submarine (shipShapeValid .Submarine)
          (shipShapeProject .Submarine)) (hv _)
        (clean_applySetupOp _ (.addShip .Cruiser (shipShapeValid .Cruiser)
            (shipShapeProject .Cruiser)) (hv _)
          (clean_applySetupOp _ (.addShip .Battleship (shipShapeValid .Battleship)
              (shipShapeProject .Battleship)) (hv _)
            (clean_applySetupOp _ (.addShip .Carrier (shipShapeValid .Carrier)
                (shipShapeProject .Carrier)) (hv _) hb))))
  refine ⟨rfl, ?_⟩
  exact uclean_withBoard _ .P2 addSimpleShips hadd
    (uclean_applyUOp _ (.addPlayer .P2 rect10dm) trivial
      (uclean_withBoard _ .P1 addSimpleShips hadd
        (uclean_applyUOp _ (.addPlayer .P1 rect10dm) trivial
          (uclean_empty Player Ship Coordinate))))

theorem map_fst_pair [DecidableEq K] (l : List (K × α)) (x y : K)
    (h : l.map Prod.fst = [x, y]) : ∃ a b, l = [(x, a), (y, b)] := by
  cases l with
  | nil => simp at h
  | cons kv l₁ =>
    cases l₁ with
    | nil => simp at h
    | cons kv₂ l₂ =>
      cases l₂ with
      | nil =>
        simp at h
        exact ⟨kv.2, kv₂.2, by rw [← h.1, ← h.2]⟩
      | cons kv₃ l₃ => simp at h

theorem simplePlace_state (s : USetup Player Ship Coordinate) (player : Player) (ship : Ship)
    (start : Coordinate) (dir : SimpleOrientation) (r : Except SimplePlaceReason Unit)
    (s' : USetup Player Ship Coordinate)
    (h : simplePlace s player ship start dir = some (r, s')) :
    s' = s ∨ ∃ proj, s' = applyUOp s (.place player ship proj) := by
  unfold simplePlace at h
  cases hb : s.boards.lookup player with
  | none => rw [hb] at h; simp at h
  | some board =>
    rw [hb] at h
    dsimp only at h
    cases hi : board.ships.lookup ship with
    | none => rw [hi] at h; simp at h
    | some info =>
      rw [hi] at h
      dsimp only at h
      cases hf : (info.project start).find? (fun proj => dir.check_dir proj) with
      | none =>
        rw [hf] at h
        dsimp only at h
        simp only [Option.some.injEq, Prod.mk.injEq] at h
        exact Or.inl h.2.symm
      | some proj =>
        rw [hf] at h
        dsimp only at h
        right
        refine ⟨proj, ?_⟩
        have happ : applyUOp s (.place player ship proj)
            = USetup.mk
                (replaceVal player
                  (BoardSetupState.mk (entryPlace ship board.grid info proj).2.1
                    (replaceVal ship (entryPlace ship board.grid info proj).2.2 board.ships))
                  s.boards)
                s.turnOrder := by
          have happly : applySetupOp board (SetupOp.place ship proj)
              = BoardSetupState.mk (entryPlace ship board.grid info proj).2.1
                  (replaceVal ship (entryPlace ship board.grid info proj).2.2 board.ships) := by
            simp only [applySetupOp]
            unfold bsPlace
            rw [hi]
            rfl
          show uWithBoard s player _ = _
          unfold uWithBoard
          rw [hb]
          dsimp only
          rw [happly]
        rw [happ]
        cases hr : (entryPlace ship board.grid info proj).1 with
        | ok u =>
          cases u
          rw [hr] at h
          dsimp only at h
          simp only [Option.some.injEq, Prod.mk.injEq] at h
          exact h.2.symm
        | error e =>
          rw [hr] at h
          cases e with
          | AlreadyOccupied =>
            dsimp only at h
            simp only [Option.some.injEq, Prod.mk.injEq] at h
            exact h.2.symm
          | AlreadyPlaced =>
            dsimp only at h
            simp only [Option.some.injEq, Prod.mk.injEq] at h
            exact h.2.symm
          | InvalidProjection =>
            dsimp only at h
            simp at h

theorem simpleUnplace_state (s : USetup Player Ship Coordinate) (player : Player) (ship : Ship)
    (r : Bool) (s' : USetup Player Ship Coordinate)
    (h : simpleUnplace s player ship = some (r, s')) :
    s' = applyUOp s (.unplace player ship) := by
  unfold simpleUnplace at h
  cases hb : s.boards.lookup player with
  | none => rw [hb] at h; simp at h
  | some board =>
    rw [hb] at h
    dsimp only at h
    cases hi : board.ships.lookup ship with
    | none => rw [hi] at h; simp at h
    | some info =>
      rw [hi] at h
      dsimp only at h
      simp only [Option.some.injEq, Prod.mk.injEq] at h
      have happ : applyUOp s (.unplace player ship)
          = USetup.mk
              (replaceVal player
                (BoardSetupState.mk (entryUnplace board.grid info).2.1
                  (replaceVal ship (entryUnplace board.grid info).2.2 board.ships))
                s.boards)
              s.turnOrder := by
        have happly : applySetupOp board (SetupOp.unplace ship)
            = BoardSetupState.mk (entryUnplace board.grid info).2.1
                (replaceVal ship (entryUnplace board.grid info).2.2 board.ships) := by
          simp only [applySetupOp]
          unfold bsUnplace
          rw [hi]
          rfl
        show uWithBoard s player _ = _
        unfold uWithBoard
        rw [hb]
        dsimp only
        rw [happly]
      rw [happ]
      exact h.2.symm

theorem applyUOp_board_turnOrder [DecidableEq P] [DecidableEq I] (s : USetup P I C)
    (pid : P) (id : I) (proj : List C) :
    (applyUOp s (.place pid id proj)).turnOrder = s.turnOrder ∧
      (applyUOp s (.unplace pid id)).turnOrder = s.turnOrder :=
  ⟨uWithBoard_turnOrder s pid _, uWithBoard_turnOrder s pid _⟩

theorem simpleClean_op (s : USetup Player Ship Coordinate) (op : SimpleSetupOp)
    (s' : USetup Player Ship Coordinate) (h : applySimpleSetupOp s op = some s')
    (hc : s.turnOrder = [Player.P1, Player.P2] ∧ USetupClean s) :
    s'.turnOrder = [Player.P1, Player.P2] ∧ USetupClean s' := by
  cases op with
  | placeShip p sh st dir =>
    obtain ⟨⟨r2, s2⟩, hps, hs2⟩ := Option.map_eq_some'.mp h
    dsimp only at hs2
    subst hs2
    rcases simplePlace_state s p sh st dir r2 s2 hps with rfl | ⟨proj, rfl⟩
    · exact hc
    · refine ⟨?_, uclean_applyUOp s (.place p sh proj) trivial hc.2⟩
      rw [(applyUOp_board_turnOrder s p sh proj).1]
      exact hc.1
  | unplaceShip p sh =>
    obtain ⟨⟨r2, s2⟩, hps, hs2⟩ := Option.map_eq_some'.mp h
    dsimp only at hs2
    subst hs2
    rw [simpleUnplace_state s p sh r2 s2 hps]
    refine ⟨?_, uclean_applyUOp s (.unplace p sh) trivial hc.2⟩
    rw [(applyUOp_board_turnOrder s p sh []).2]
    exact hc.1

theorem simpleClean_ops (sops : List SimpleSetupOp) (s : USetup Player Ship Coordinate)
    (hc : s.turnOrder = [Player.P1, Player.P2] ∧ USetupClean s)
    (s' : USetup Player Ship Coordinate) (h : applySimpleSetupOps s sops = some s') :
    s'.turnOrder = [Player.P1, Player.P2] ∧ USetupClean s' := by
  induction sops generalizing s with
  | nil =>
    cases h
    exact hc
  | cons op ops ih =>
    rw [show applySimpleSetupOps s (op :: ops)
        = (applySimpleSetupOp s op) >>= fun s₁ => applySimpleSetupOps s₁ ops from rfl] at h
    cases happ : applySimpleSetupOp s op with
    | none => rw [happ] at h; simp at h
    | some s₁ =>
      rw [happ] at h
      exact ih s₁ (simpleClean_op s op s₁ happ hc) h

theorem simple_start_turnInv (S : USetup Player Ship Coordinate)
    (g₀ : GameState Player Ship Coordinate)
    (hto : S.turnOrder = [Player.P1, Player.P2]) (hclean : USetupClean S)
    (hstart : ustart S = some g₀) : SimpleTurnInv g₀ := by
  obtain ⟨hkeys, hboards⟩ := hclean
  obtain ⟨b1, b2, hbs⟩ := map_fst_pair S.boards Player.P1 Player.P2 (by rw [hkeys, hto])
  unfold ustart at hstart
  by_cases hrdy : uReady S = true
  case neg => rw [if_neg hrdy] at hstart; cases hstart
  case pos =>
  rw [if_pos hrdy] at hstart
  cases hstart
  unfold uReady at hrdy
  rw [Bool.and_eq_true] at hrdy
  obtain ⟨_, hall⟩ := hrdy
  have hlk1 : S.boards.lookup Player.P1 = some b1 := by
    rw [hbs, lookup_cons, if_pos rfl]
  have hready1 : bsReady b1 = true := by
    rw [hbs] at hall
    simp only [List.all_cons, Bool.and_eq_true] at hall
    exact hall.1
  refine ⟨rfl, hto, boardStart b1, boardStart b2, ?_, ?_⟩
  · show S.boards.map _ = _
    rw [hbs]
    rfl
  · exact boardStart_undefeated b1 hready1 (hboards _ b1 hlk1).1 (hboards _ b1 hlk1).2

theorem simpleRunShots_total (shots : List (Player × Coordinate))
    (g : GameState Player Ship Coordinate) (h : SimpleTurnInv g) :
    ∃ g', simpleRunShots g shots = some g' ∧ SimpleTurnInv g' := by
  induction shots generalizing g with
  | nil => exact ⟨g, rfl, h⟩
  | cons tc shots ih =>
    obtain ⟨res, g1, hsome, hinv1⟩ := simpleShoot_total g tc.1 tc.2 h
    obtain ⟨g2, hrun, hinv2⟩ := ih g1 hinv1
    refine ⟨g2, ?_, hinv2⟩
    rw [show simpleRunShots g (tc :: shots)
        = ((simpleShoot g tc.1 tc.2).map fun r => r.2) >>= fun g' => simpleRunShots g' shots
        from rfl]
    rw [hsome]
    simpa using hrun

/-- C9: in the two-player facade, every reachable game state resolves every
shot without reaching the `unreachable!` arms of `Game::shoot`'s mapping:
the uniform `Defeated` outcome and the uniform `UnknownPlayer` and
`AlreadyDefeated` error reasons never occur, so any sequence of facade shots
runs to completion. -/
theorem C9_facade_no_unreachable (sops : List SimpleSetupOp)
    (S' : USetup Player Ship Coordinate)
    (hsetup : applySimpleSetupOps simpleNewSetup sops = some S')
    (g₀ : GameState Player Ship Coordinate) (hstart : ustart S' = some g₀)
    (shots : List (Player × Coordinate)) :
    (simpleRunShots g₀ shots).isSome = true := by
  have hclean := simpleClean_ops sops simpleNewSetup simpleNewSetup_clean S' hsetup
  have hinv₀ := simple_start_turnInv S' g₀ hclean.1 hclean.2 hstart
  obtain ⟨g', hrun, _⟩ := simpleRunShots_total shots g₀ hinv₀
  rw [hrun]
  rfl

/-- Witness for C9 on the concrete fully-placed facade game, one shot fired. -/
theorem C9_facade_no_unreachable_witness :
    (simpleRunShots wSimpleGame [(Player.P2, ⟨0, 0⟩)]).isSome = true :=
  C9_facade_no_unreachable wSimpleOps wSimpleSetup (by rfl) wSimpleGame (by rfl)
    [(Player.P2, ⟨0, 0⟩)]
